import Mathlib

/-!
Shallow embedding of the rmixer real-time audio mixer core (src/ipc.rs,
src/config.rs, src/audio/engine.rs, src/ui/app.rs).

Modelling conventions:
* `f32` samples, dB values and linear gains are exact rationals (`ℚ`);
  overflow/rounding of IEEE floats is idealised away.
* The transcendental conversion `10^(db/20)` (`MeterData::db_to_linear`,
  `10.0f32.powf(db / 20.0)`) has no exact rational counterpart, so every
  engine definition takes it as an explicit parameter `d2l : ℚ → ℚ`;
  properties that need its value at 0 dB (`powf(0.0) = 1.0` exactly in IEEE)
  take the hypothesis `d2l 0 = 1`.
* `std::time::Instant` timestamps are rational seconds;
  `Instant::duration_since` saturates at zero, modelled by `elapsed`.
* JACK port sample slices are `List ℚ`; the flat port vectors
  (`input_ports`, `output_ports` in `ProcessHandler`) are represented
  grouped per channel (the flat vectors are built in `AudioEngine::new` as
  the concatenation of each configured channel's ports, in order, and
  `input_port_counts[ch]` / `output_port_counts[ch]` equal the number of
  ports of channel `ch`, so a channel's slice of the flat vector is exactly
  its own port list).
-/

namespace RMixer

/-- Volume limits in dB (src/ipc.rs). -/
def VOLUME_MIN_DB : ℚ := -60

/-- Maximum volume in dB (src/ipc.rs). -/
def VOLUME_MAX_DB : ℚ := 12

/-- Volume step in dB (src/ipc.rs). -/
def VOLUME_STEP_DB : ℚ := 1/2

/-- Default volume in dB (src/ipc.rs). -/
def VOLUME_DEFAULT_DB : ℚ := 0

/-- Rust `f32::clamp`: `if self < min { min } else if self > max { max } else { self }`. -/
def clampV (x lo hi : ℚ) : ℚ := if x < lo then lo else if hi < x then hi else x

/-- Rust `Instant::duration_since` followed by `as_secs_f32`: the elapsed time
from `earlier` to `now`, saturating at zero when `earlier` is later. -/
def elapsed (now earlier : ℚ) : ℚ := max (now - earlier) 0

/-- State of a single channel (src/ipc.rs `ChannelState`); the `[f32; 2]`
arrays (`current_peaks`, `peak_hold`) and `[Instant; 2]` array
(`peak_hold_time`) are pairs, slot 0 first. -/
structure ChannelState where
  name : String
  port_count : Nat
  volume_db : ℚ
  muted : Bool
  soloed : Bool
  current_peaks : ℚ × ℚ
  peak_hold : ℚ × ℚ
  peak_hold_time : ℚ × ℚ
deriving DecidableEq

/-- ChannelState::new (src/ipc.rs), with `Instant::now()` passed as `now`. -/
def ChannelState.new_at (name : String) (port_count : Nat) (now : ℚ) : ChannelState :=
  { name := name
    port_count := port_count
    volume_db := VOLUME_DEFAULT_DB
    muted := false
    soloed := false
    current_peaks := (0, 0)
    peak_hold := (0, 0)
    peak_hold_time := (now, now) }

/-- Body of the peak-hold update for one slot of `ChannelState::update_meter`
(src/ipc.rs lines 143-152): returns the new `(peak_hold, peak_hold_time)`.
`peaks[i] > self.peak_hold[i]` snaps up and resets the timer; otherwise, if
`now.duration_since(self.peak_hold_time[i]).as_secs_f32() > dur`, the hold
decays to the new peak and the timer resets; otherwise both are unchanged. -/
def hold_step (peak hold htime dur now : ℚ) : ℚ × ℚ :=
  if hold < peak then (peak, now)
  else if dur < elapsed now htime then (peak, now)
  else (hold, htime)

/-- Loop body of `ChannelState::update_meter` for slot 0 (`i = 0`). -/
def update_slot0 (st : ChannelState) (peaks : ℚ × ℚ) (dur now : ℚ) : ChannelState :=
  let hs := hold_step peaks.1 st.peak_hold.1 st.peak_hold_time.1 dur now
  { st with
      current_peaks := (peaks.1, st.current_peaks.2)
      peak_hold := (hs.1, st.peak_hold.2)
      peak_hold_time := (hs.2, st.peak_hold_time.2) }

/-- Loop body of `ChannelState::update_meter` for slot 1 (`i = 1`). -/
def update_slot1 (st : ChannelState) (peaks : ℚ × ℚ) (dur now : ℚ) : ChannelState :=
  let hs := hold_step peaks.2 st.peak_hold.2 st.peak_hold_time.2 dur now
  { st with
      current_peaks := (st.current_peaks.1, peaks.2)
      peak_hold := (st.peak_hold.1, hs.1)
      peak_hold_time := (st.peak_hold_time.1, hs.2) }

/-- ChannelState::update_meter (src/ipc.rs lines 136-154): the loop
`for i in 0..self.port_count` over the two slots, with `Instant::now()`
passed as `now`.  Configured channels always have `port_count ≤ 2`
(`ChannelConfig::port_count` is `ports.len().min(2)`), matching the
`[f32; 2]` arrays. -/
def ChannelState.update_meter (st : ChannelState) (peaks : ℚ × ℚ) (dur now : ℚ) :
    ChannelState :=
  let st1 := if 0 < st.port_count then update_slot0 st peaks dur now else st
  if 1 < st1.port_count then update_slot1 st1 peaks dur now else st1

/-- ChannelState::adjust_volume (src/ipc.rs lines 157-159). -/
def ChannelState.adjust_volume (st : ChannelState) (delta_db : ℚ) : ChannelState :=
  { st with volume_db := clampV (st.volume_db + delta_db) VOLUME_MIN_DB VOLUME_MAX_DB }

/-- ChannelState::get_linear_gain (src/ipc.rs lines 162-168), with the
dB-to-linear conversion as parameter `d2l`. -/
def get_linear_gain (d2l : ℚ → ℚ) (st : ChannelState) : ℚ :=
  if st.muted then 0 else d2l st.volume_db

/-- Meter data sent from the audio thread to the UI thread
(src/ipc.rs `MeterData`). -/
structure MeterData where
  channel_index : Nat
  peaks : ℚ × ℚ
  port_count : Nat
  timestamp : ℚ
deriving DecidableEq

/-- Control message sent from the UI thread to the audio thread
(src/ipc.rs `ControlMsg`). -/
inductive ControlMsg where
  | SetInputVolume (channel : Nat) (volume_db : ℚ)
  | SetOutputVolume (channel : Nat) (volume_db : ℚ)
  | ToggleInputMute (channel : Nat)
  | ToggleOutputMute (channel : Nat)
  | ToggleInputSolo (channel : Nat)
  | Quit
deriving DecidableEq

/-- Mixer state containing all channel states (src/ipc.rs `MixerState`). -/
structure MixerState where
  inputs : List ChannelState
  outputs : List ChannelState
deriving DecidableEq

/-- MixerState::any_input_soloed (src/ipc.rs lines 180-182). -/
def MixerState.any_input_soloed (s : MixerState) : Bool :=
  s.inputs.any (fun c => c.soloed)

/-- In-place update `l[i] = f l[i]` on a Rust `Vec`, used after an explicit
`i < len` bounds check; out of range it is the identity. -/
def modify_at : List ChannelState → Nat → (ChannelState → ChannelState) → List ChannelState
  | [], _, _ => []
  | c :: l, 0, f => f c :: l
  | c :: l, n + 1, f => c :: modify_at l n f

/-- One mono sample buffer (a JACK port's slice for one block). -/
abbrev Buf := List ℚ

/-- One channel as seen by the real-time engine: its mixer state entry
together with its port buffers (one `Buf` per port, in registration order).
For inputs these are the slices of `input_ports` belonging to the channel,
for outputs the slices of `output_ports`; `bufs.length` equals the channel's
entry in `input_port_counts` / `output_port_counts`. -/
structure EngineChan where
  state : ChannelState
  bufs : List Buf
deriving DecidableEq

/-- Default channel used with `List.getD`. -/
def no_chan : EngineChan :=
  { state :=
      { name := ""
        port_count := 0
        volume_db := 0
        muted := false
        soloed := false
        current_peaks := (0, 0)
        peak_hold := (0, 0)
        peak_hold_time := (0, 0) }
    bufs := [] }

/-- ProcessHandler::compute_peak (src/audio/engine.rs lines 246-251):
maximum absolute sample value, folded from 0. -/
def compute_peak (samples : Buf) : ℚ :=
  (samples.map (fun s => |s|)).foldl max 0

/-- The `any_soloed` flag of the process callback
(src/audio/engine.rs line 263, via `MixerState::any_input_soloed`). -/
def any_soloed_of (ics : List EngineChan) : Bool :=
  ics.any (fun c => c.state.soloed)

/-- Effective input gain computed per input channel in the process callback
(src/audio/engine.rs lines 279-285): 0 if muted, else 0 if some input is
soloed and this one is not, else `db_to_linear(volume_db)`. -/
def effective_input_gain (d2l : ℚ → ℚ) (any_soloed : Bool) (st : ChannelState) : ℚ :=
  if st.muted then 0
  else if any_soloed && !st.soloed then 0
  else d2l st.volume_db

/-- Routing predicate `use_this_input` of the process callback
(src/audio/engine.rs lines 304-310): mono inputs fan out to every output
port; stereo inputs use matched indices with a left fallback for output
ports at index `≥ port_count`. -/
def use_this_input (port_count p out_p : Nat) : Bool :=
  if port_count = 1 then true
  else p = out_p || (p = 0 && port_count ≤ out_p)

/-- Inner accumulation loop of the process callback
(src/audio/engine.rs lines 316-318): `*out_s += in_s * combined_gain`
pairwise over the two slices. -/
def add_scaled (combined_gain : ℚ) (ins buf : Buf) : Buf :=
  List.zipWith (fun o i => o + i * combined_gain) buf ins

/-- Loop `for out_p in 0..out_port_count` of the process callback
(src/audio/engine.rs lines 300-321) restricted to one output channel's
buffers, with `out_p` starting at `k`: each output port buffer receives the
input port's contribution when `use_this_input` holds. -/
def mix_port_into_bufs (g : ℚ) (pc p : Nat) (ins : Buf) : Nat → List Buf → List Buf
  | _, [] => []
  | out_p, buf :: rest =>
      (if use_this_input pc p out_p then add_scaled g ins buf else buf)
        :: mix_port_into_bufs g pc p ins (out_p + 1) rest

/-- Loop over all output channels for one input port
(src/audio/engine.rs lines 295-322): `combined_gain = input_gain *
output_gain` with `output_gain = output_state.get_linear_gain()`. -/
def mix_port_into_outputs (d2l : ℚ → ℚ) (input_gain : ℚ) (pc p : Nat) (ins : Buf)
    (outs : List EngineChan) : List EngineChan :=
  outs.map (fun oc =>
    { oc with
        bufs := mix_port_into_bufs (input_gain * get_linear_gain d2l oc.state)
          pc p ins 0 oc.bufs })

/-- Loop `for p in 0..port_count` of the process callback
(src/audio/engine.rs lines 290-325), with `p` starting at `p0`. -/
def mix_channel_ports (d2l : ℚ → ℚ) (input_gain : ℚ) (pc : Nat) :
    Nat → List Buf → List EngineChan → List EngineChan
  | _, [], outs => outs
  | p, ins :: rest, outs =>
      mix_channel_ports d2l input_gain pc (p + 1) rest
        (mix_port_into_outputs d2l input_gain pc p ins outs)

/-- Outer loop over input channels of the process callback
(src/audio/engine.rs lines 274-335); `ic.bufs.length` is the channel's
`input_port_counts` entry. -/
def mix_inputs (d2l : ℚ → ℚ) (any_soloed : Bool) :
    List EngineChan → List EngineChan → List EngineChan
  | [], outs => outs
  | ic :: rest, outs =>
      mix_inputs d2l any_soloed rest
        (mix_channel_ports d2l (effective_input_gain d2l any_soloed ic.state)
          ic.bufs.length 0 ic.bufs outs)

/-- Zeroing of one output buffer (src/audio/engine.rs lines 266-271). -/
def zero_buf (b : Buf) : Buf := b.map (fun _ => 0)

/-- Zeroing of every output buffer (src/audio/engine.rs lines 266-271). -/
def zero_outputs (outs : List EngineChan) : List EngineChan :=
  outs.map (fun oc => { oc with bufs := oc.bufs.map zero_buf })

/-- The mixing part of the process callback (steps after the quit check in
src/audio/engine.rs lines 263-335): compute `any_soloed`, zero all output
buffers, then mix every input port into the output buffers. -/
def process_block (d2l : ℚ → ℚ) (inputs outs : List EngineChan) : List EngineChan :=
  mix_inputs d2l (any_soloed_of inputs) inputs (zero_outputs outs)

/-- Return value of the JACK process callback (`jack::Control`). -/
inductive JackControl where
  | Continue
  | Quit
deriving DecidableEq

/-- The process callback after the control queue has been drained
(src/audio/engine.rs lines 255-358): if the quit flag is set, return
`Control::Quit` leaving the output buffers untouched; otherwise mix the
block and return `Control::Continue`. -/
def process (d2l : ℚ → ℚ) (quit_flag : Bool) (inputs outs : List EngineChan) :
    JackControl × List EngineChan :=
  if quit_flag then (JackControl.Quit, outs)
  else (JackControl.Continue, process_block d2l inputs outs)

/-- Sum, over the ports of one input channel paired with their index `p`
starting at `p0`, of a per-port term; used to state the mixing formula. -/
def ports_sum (f : Nat → Buf → ℚ) : Nat → List Buf → ℚ
  | _, [] => 0
  | p, ins :: rest => f p ins + ports_sum f (p + 1) rest

/-- The additive-mix value claimed for one output sample: the sum over all
input channels and their ports routed to output port `out_p` of the input
sample at position `j` times the combined gain (effective input gain times
output channel gain). -/
def routed_sum (d2l : ℚ → ℚ) (any_soloed : Bool) (out_state : ChannelState)
    (out_p j : Nat) : List EngineChan → ℚ
  | [] => 0
  | ic :: rest =>
      ports_sum (fun p ins =>
        if use_this_input ic.bufs.length p out_p
        then ins.getD j 0 *
          (effective_input_gain d2l any_soloed ic.state * get_linear_gain d2l out_state)
        else 0) 0 ic.bufs
      + routed_sum d2l any_soloed out_state out_p j rest

/-- All buffers in the list have block length `n`. -/
def bufs_len (n : Nat) (l : List Buf) : Prop := ∀ b ∈ l, b.length = n

/-- All port buffers of all channels have block length `n` (JACK hands every
port a slice of the single block length of the session). -/
def chans_len (n : Nat) (cs : List EngineChan) : Prop :=
  ∀ c ∈ cs, ∀ b ∈ c.bufs, b.length = n

/-- One step of ProcessHandler::process_control_messages
(src/audio/engine.rs lines 207-243) applied to the engine's local state:
the authoritative `MixerState` plus the quit flag.  Every indexed command is
bounds-checked; out-of-range indices leave the state unchanged.  Note the
`Set*Volume` arms store `volume_db` as received, without clamping. -/
def apply_control (s : MixerState × Bool) : ControlMsg → MixerState × Bool
  | ControlMsg.SetInputVolume channel volume_db =>
      if channel < s.1.inputs.length then
        let l := modify_at s.1.inputs channel (fun c => { c with volume_db := volume_db })
        ({ s.1 with inputs := l }, s.2)
      else s
  | ControlMsg.SetOutputVolume channel volume_db =>
      if channel < s.1.outputs.length then
        let l := modify_at s.1.outputs channel (fun c => { c with volume_db := volume_db })
        ({ s.1 with outputs := l }, s.2)
      else s
  | ControlMsg.ToggleInputMute channel =>
      if channel < s.1.inputs.length then
        let l := modify_at s.1.inputs channel (fun c => { c with muted := !c.muted })
        ({ s.1 with inputs := l }, s.2)
      else s
  | ControlMsg.ToggleOutputMute channel =>
      if channel < s.1.outputs.length then
        let l := modify_at s.1.outputs channel (fun c => { c with muted := !c.muted })
        ({ s.1 with outputs := l }, s.2)
      else s
  | ControlMsg.ToggleInputSolo channel =>
      if channel < s.1.inputs.length then
        let l := modify_at s.1.inputs channel (fun c => { c with soloed := !c.soloed })
        ({ s.1 with inputs := l }, s.2)
      else s
  | ControlMsg.Quit => (s.1, true)

/-- Draining loop of ProcessHandler::process_control_messages
(src/audio/engine.rs lines 207-243): apply every pending message in FIFO
order. -/
def drain_control (s : MixerState × Bool) (msgs : List ControlMsg) : MixerState × Bool :=
  msgs.foldl apply_control s

/-- A control message addresses a channel index that is out of range for its
channel list (`ControlMsg::Quit` carries no index). -/
def msg_out_of_range (s : MixerState) : ControlMsg → Bool
  | ControlMsg.SetInputVolume channel _ => decide (s.inputs.length ≤ channel)
  | ControlMsg.SetOutputVolume channel _ => decide (s.outputs.length ≤ channel)
  | ControlMsg.ToggleInputMute channel => decide (s.inputs.length ≤ channel)
  | ControlMsg.ToggleOutputMute channel => decide (s.outputs.length ≤ channel)
  | ControlMsg.ToggleInputSolo channel => decide (s.inputs.length ≤ channel)
  | ControlMsg.Quit => false

/-- Modelled from the spec: the bounded lock-free SPSC ring buffer backing
the control channel is the external `rtrb` crate, whose code is not under
src/.  Per spec section 4.1 it is a bounded FIFO of fixed capacity whose
non-blocking `push` fails when the capacity is exceeded and otherwise
appends the message; `AudioEngine::send_control` (src/audio/engine.rs lines
135-139) maps the push failure to the error "Control message queue full".
`items` lists the queued messages oldest first. -/
structure ControlQueue where
  capacity : Nat
  items : List ControlMsg
deriving DecidableEq

/-- Modelled from the spec: `rtrb` `Producer::push` as used by
`AudioEngine::send_control` — non-blocking, fails when the queue holds
`capacity` messages, leaving the queue unchanged. -/
def ControlQueue.push (q : ControlQueue) (m : ControlMsg) : Except String ControlQueue :=
  if q.items.length < q.capacity then Except.ok { q with items := q.items ++ [m] }
  else Except.error "Control message queue full"

/-- Size of the control ring buffer (src/audio/engine.rs line 20). -/
def CONTROL_RING_BUFFER_SIZE : Nat := 64

/-- A sequence of sends with no intervening receives: each message is pushed
in order; a failed push leaves the queue as it was.  Returns the final queue
and the per-send success flags in order. -/
def send_all (q : ControlQueue) : List ControlMsg → ControlQueue × List Bool
  | [] => (q, [])
  | m :: rest =>
      match q.push m with
      | Except.ok q2 =>
          let r := send_all q2 rest
          (r.1, true :: r.2)
      | Except.error _ =>
          let r := send_all q rest
          (r.1, false :: r.2)

/-- Configuration for a single channel (src/config.rs `ChannelConfig`). -/
structure ChannelConfig where
  name : String
  ports : List String
  volume_db : Option ℚ
deriving DecidableEq

/-- ChannelConfig::port_count (src/config.rs lines 50-52). -/
def ChannelConfig.port_count (c : ChannelConfig) : Nat := min c.ports.length 2

/-- Main configuration structure (src/config.rs `Config`); `config_path` is
irrelevant to validation and omitted. -/
structure Config where
  client_name : String
  inputs : List ChannelConfig
  outputs : List ChannelConfig
deriving DecidableEq

/-- Per-channel checks of Config::validate (src/config.rs lines 109-139),
applied to each channel in order with first-failure semantics: empty name,
empty port list, then more than 2 ports. -/
def validate_channel_list : List ChannelConfig → Except String Unit
  | [] => Except.ok ()
  | c :: rest =>
      if c.name = "" then Except.error "channel has empty name"
      else if c.ports = [] then Except.error "channel has no ports defined"
      else if 2 < c.ports.length then Except.error "channel has more than 2 ports"
      else validate_channel_list rest

/-- Config::validate (src/config.rs lines 96-142): rejects an empty client
name, zero channels in either direction, and any channel with an empty
name, an empty port list, or more than 2 ports.  It performs no check on
`volume_db`. -/
def Config.validate (cfg : Config) : Except String Unit :=
  if cfg.client_name = "" then Except.error "client_name cannot be empty"
  else if cfg.inputs = [] then Except.error "at least one input channel is required"
  else if cfg.outputs = [] then Except.error "at least one output channel is required"
  else
    match validate_channel_list cfg.inputs with
    | Except.error e => Except.error e
    | Except.ok _ => validate_channel_list cfg.outputs

/-- Initial volume of a channel state built by App::new
(src/ui/app.rs lines 76-98): the configured volume clamped to
`[-60.0, 12.0]` when present, else the default 0 dB. -/
def initial_volume_db (c : ChannelConfig) : ℚ :=
  match c.volume_db with
  | some v => clampV v VOLUME_MIN_DB VOLUME_MAX_DB
  | none => VOLUME_DEFAULT_DB

/-- The volume operations the two sides perform on a channel's `volume_db`:
`adjustVolume` is `ChannelState::adjust_volume` (src/ipc.rs lines 157-159,
clamped), `engineSetVolume` is the engine's application of a
`Set*Volume` control message (src/audio/engine.rs lines 210-219, stored as
received), `resetToZero` is `App::reset_volume_to_zero`
(src/ui/app.rs lines 408-430). -/
inductive VolumeOp where
  | adjustVolume (delta_db : ℚ)
  | engineSetVolume (volume_db : ℚ)
  | resetToZero
deriving DecidableEq

/-- Apply one volume operation to a `volume_db` value. -/
def apply_volume_op (v : ℚ) : VolumeOp → ℚ
  | VolumeOp.adjustVolume delta_db => clampV (v + delta_db) VOLUME_MIN_DB VOLUME_MAX_DB
  | VolumeOp.engineSetVolume volume_db => volume_db
  | VolumeOp.resetToZero => 0

/-- Apply a sequence of volume operations in order. -/
def run_volume_ops (v : ℚ) (ops : List VolumeOp) : ℚ :=
  ops.foldl apply_volume_op v

/-- Peak hold duration in seconds (src/ui/app.rs line 31). -/
def PEAK_HOLD_DURATION : ℚ := 5

/-- One step of App::process_meter_updates (src/ui/app.rs lines 204-221):
indices below `inputs.len()` address input channels, the rest address
output channels after subtracting `num_inputs`, out-of-range indices are
ignored; the addressed channel gets `update_meter(meter.peaks, dur)`. -/
def apply_meter (dur now : ℚ) (s : MixerState) (m : MeterData) : MixerState :=
  let num_inputs := s.inputs.length
  if m.channel_index < num_inputs then
    let l := modify_at s.inputs m.channel_index (fun c => c.update_meter m.peaks dur now)
    { s with inputs := l }
  else
    let output_idx := m.channel_index - num_inputs
    if output_idx < s.outputs.length then
      let l := modify_at s.outputs output_idx (fun c => c.update_meter m.peaks dur now)
      { s with outputs := l }
    else s

/-- Draining loop of App::process_meter_updates (src/ui/app.rs lines
204-221): apply every pending meter sample in FIFO order.  All samples of
one display frame share the model timestamp `now`. -/
def process_meter_updates (dur now : ℚ) (s : MixerState) (msgs : List MeterData) :
    MixerState :=
  msgs.foldl (apply_meter dur now) s

/-- Modelled from the spec (section 4.2, for the refinement claim): keep
only the last pending sample per channel index, preserving order —
"applies the last sample per channel index". -/
def keep_last : List MeterData → List MeterData
  | [] => []
  | m :: rest =>
      if rest.any (fun m2 => m2.channel_index = m.channel_index) then keep_last rest
      else m :: keep_last rest

/-- The last pending sample addressed to channel index `idx`, if any. -/
def last_meter_for (idx : Nat) : List MeterData → Option MeterData
  | [] => none
  | m :: rest =>
      match last_meter_for idx rest with
      | some m2 => some m2
      | none => if m.channel_index = idx then some m else none

/-- Effect of one `update_meter` call on `current_peaks`: slots below
`port_count` take the new peaks, the rest keep their old value. -/
def set_peaks (cur peaks : ℚ × ℚ) (pc : Nat) : ℚ × ℚ :=
  (if 0 < pc then peaks.1 else cur.1, if 1 < pc then peaks.2 else cur.2)

/-- A channel state with every control at its default (0 dB, unmuted,
unsoloed, zeroed meters), used for concrete instances. -/
def flat_state (nm : String) (pc : Nat) : ChannelState :=
  { name := nm
    port_count := pc
    volume_db := 0
    muted := false
    soloed := false
    current_peaks := (0, 0)
    peak_hold := (0, 0)
    peak_hold_time := (0, 0) }

/-! Generic list access helpers. -/

theorem getD_map_of_lt {α β : Type} (f : α → β) (d : β) (d0 : α) :
    ∀ (l : List α) (i : Nat), i < l.length → (l.map f).getD i d = f (l.getD i d0)
  | a :: l, 0, _ => by simp
  | a :: l, i + 1, h => by
      simpa using getD_map_of_lt f d d0 l i (by simpa using h)

theorem getD_mem {α : Type} (d : α) :
    ∀ (l : List α) (i : Nat), i < l.length → l.getD i d ∈ l
  | a :: l, 0, _ => by simp
  | a :: l, i + 1, h => by
      simpa using Or.inr (getD_mem d l i (by simpa using h))

theorem getD_zipWith_of_lt (f : ℚ → ℚ → ℚ) :
    ∀ (l1 l2 : List ℚ) (j : Nat), j < l1.length → j < l2.length →
      (List.zipWith f l1 l2).getD j 0 = f (l1.getD j 0) (l2.getD j 0)
  | a :: l1, b :: l2, 0, _, _ => by simp
  | a :: l1, b :: l2, j + 1, h1, h2 => by
      simpa using getD_zipWith_of_lt f l1 l2 j (by simpa using h1) (by simpa using h2)

theorem list_eq_of_getD {α : Type} (d : α) :
    ∀ (l1 l2 : List α), l1.length = l2.length →
      (∀ i, i < l1.length → l1.getD i d = l2.getD i d) → l1 = l2
  | [], [], _, _ => rfl
  | [], b :: l2, hl, _ => by simp at hl
  | a :: l1, [], hl, _ => by simp at hl
  | a :: l1, b :: l2, hl, h => by
      have h0 := h 0 (by simp)
      simp only [List.getD_cons_zero] at h0
      have ht := list_eq_of_getD d l1 l2 (by simpa using hl)
        (fun i hi => by simpa using h (i + 1) (by simpa using hi))
      rw [h0, ht]

/-! Clamping. -/

theorem clampV_mem (x lo hi : ℚ) (h : lo ≤ hi) :
    lo ≤ clampV x lo hi ∧ clampV x lo hi ≤ hi := by
  unfold clampV
  split_ifs with h1 h2
  · exact ⟨le_refl lo, h⟩
  · exact ⟨h, le_refl hi⟩
  · exact ⟨by linarith, by linarith⟩

/-! Lemmas on the per-port accumulation. -/

theorem length_add_scaled (g : ℚ) (ins buf : Buf) :
    (add_scaled g ins buf).length = min buf.length ins.length := by
  simp [add_scaled]

theorem getD_add_scaled (g : ℚ) (ins buf : Buf) (j : Nat)
    (h1 : j < buf.length) (h2 : j < ins.length) :
    (add_scaled g ins buf).getD j 0 = buf.getD j 0 + ins.getD j 0 * g :=
  getD_zipWith_of_lt _ buf ins j h1 h2

theorem add_scaled_zero_gain :
    ∀ (ins buf : Buf), buf.length ≤ ins.length → add_scaled 0 ins buf = buf
  | _, [], _ => rfl
  | i :: ins, b :: buf, h => by
      have ht := add_scaled_zero_gain ins buf (by simpa using h)
      show (b + i * 0) :: add_scaled 0 ins buf = b :: buf
      rw [ht, mul_zero, add_zero]
  | [], b :: buf, h => by simp at h

theorem length_mix_port_into_bufs (g : ℚ) (pc p : Nat) (ins : Buf) :
    ∀ (bufs : List Buf) (k : Nat), (mix_port_into_bufs g pc p ins k bufs).length = bufs.length
  | [], _ => rfl
  | b :: bufs, k => by
      simp [mix_port_into_bufs, length_mix_port_into_bufs g pc p ins bufs (k + 1)]

theorem getD_mix_port_into_bufs (g : ℚ) (pc p : Nat) (ins : Buf) :
    ∀ (bufs : List Buf) (k i : Nat), i < bufs.length →
      (mix_port_into_bufs g pc p ins k bufs).getD i [] =
        if use_this_input pc p (k + i) then add_scaled g ins (bufs.getD i [])
        else bufs.getD i []
  | b :: bufs, k, 0, _ => by simp [mix_port_into_bufs]
  | b :: bufs, k, i + 1, h => by
      have hrec := getD_mix_port_into_bufs g pc p ins bufs (k + 1) i (by simpa using h)
      have hk : k + (i + 1) = (k + 1) + i := by omega
      simpa [mix_port_into_bufs, hk] using hrec

theorem bufs_len_mix_port_into_bufs {n : Nat} (g : ℚ) (pc p : Nat) {ins : Buf}
    (hins : ins.length = n) :
    ∀ {bufs : List Buf}, bufs_len n bufs → ∀ (k : Nat),
      bufs_len n (mix_port_into_bufs g pc p ins k bufs)
  | [], _, _ => by intro b hb; simp [mix_port_into_bufs] at hb
  | b :: bufs, hb, k => by
      intro b' hb'
      simp only [mix_port_into_bufs, List.mem_cons] at hb'
      rcases hb' with h | h
      · have hbn : b.length = n := hb b (by simp)
        subst h
        split
        · rw [length_add_scaled, hbn, hins]; exact Nat.min_self n
        · exact hbn
      · exact bufs_len_mix_port_into_bufs g pc p hins
          (fun x hx => hb x (List.mem_cons_of_mem _ hx)) (k + 1) b' h

/-! Lemmas on mixing one input port into all output channels. -/

theorem length_mix_port_into_outputs (d2l : ℚ → ℚ) (gin : ℚ) (pc p : Nat) (ins : Buf)
    (outs : List EngineChan) :
    (mix_port_into_outputs d2l gin pc p ins outs).length = outs.length := by
  simp [mix_port_into_outputs]

theorem getD_mix_port_into_outputs (d2l : ℚ → ℚ) (gin : ℚ) (pc p : Nat) (ins : Buf)
    (outs : List EngineChan) (i : Nat) (h : i < outs.length) :
    (mix_port_into_outputs d2l gin pc p ins outs).getD i no_chan =
      { outs.getD i no_chan with
          bufs := mix_port_into_bufs (gin * get_linear_gain d2l (outs.getD i no_chan).state)
            pc p ins 0 (outs.getD i no_chan).bufs } :=
  getD_map_of_lt _ no_chan no_chan outs i h

theorem chans_len_mix_port_into_outputs {n : Nat} (d2l : ℚ → ℚ) (gin : ℚ) (pc p : Nat)
    {ins : Buf} (hins : ins.length = n) {outs : List EngineChan} (houts : chans_len n outs) :
    chans_len n (mix_port_into_outputs d2l gin pc p ins outs) := by
  intro c hc
  simp only [mix_port_into_outputs, List.mem_map] at hc
  obtain ⟨oc, hoc, rfl⟩ := hc
  exact bufs_len_mix_port_into_bufs _ _ _ hins (houts oc hoc) 0

/-! Lemmas on mixing all ports of one input channel. -/

theorem length_mix_channel_ports (d2l : ℚ → ℚ) (gin : ℚ) (pc : Nat) :
    ∀ (ports : List Buf) (p0 : Nat) (outs : List EngineChan),
      (mix_channel_ports d2l gin pc p0 ports outs).length = outs.length
  | [], _, _ => rfl
  | ins :: rest, p0, outs => by
      simp only [mix_channel_ports]
      rw [length_mix_channel_ports d2l gin pc rest (p0 + 1) _,
        length_mix_port_into_outputs]

theorem state_mix_channel_ports (d2l : ℚ → ℚ) (gin : ℚ) (pc : Nat) :
    ∀ (ports : List Buf) (p0 : Nat) (outs : List EngineChan) (i : Nat), i < outs.length →
      ((mix_channel_ports d2l gin pc p0 ports outs).getD i no_chan).state =
        (outs.getD i no_chan).state
  | [], _, _, _, _ => rfl
  | ins :: rest, p0, outs, i, h => by
      simp only [mix_channel_ports]
      rw [state_mix_channel_ports d2l gin pc rest (p0 + 1) _ i
        (by rw [length_mix_port_into_outputs]; exact h)]
      rw [getD_mix_port_into_outputs d2l gin pc p0 ins outs i h]

theorem bufs_length_mix_channel_ports (d2l : ℚ → ℚ) (gin : ℚ) (pc : Nat) :
    ∀ (ports : List Buf) (p0 : Nat) (outs : List EngineChan) (i : Nat), i < outs.length →
      ((mix_channel_ports d2l gin pc p0 ports outs).getD i no_chan).bufs.length =
        (outs.getD i no_chan).bufs.length
  | [], _, _, _, _ => rfl
  | ins :: rest, p0, outs, i, h => by
      simp only [mix_channel_ports]
      rw [bufs_length_mix_channel_ports d2l gin pc rest (p0 + 1) _ i
        (by rw [length_mix_port_into_outputs]; exact h)]
      rw [getD_mix_port_into_outputs d2l gin pc p0 ins outs i h]
      exact length_mix_port_into_bufs _ pc p0 ins _ 0

theorem chans_len_mix_channel_ports {n : Nat} (d2l : ℚ → ℚ) (gin : ℚ) (pc : Nat) :
    ∀ (ports : List Buf), bufs_len n ports → ∀ (p0 : Nat) {outs : List EngineChan},
      chans_len n outs → chans_len n (mix_channel_ports d2l gin pc p0 ports outs)
  | [], _, _, _, h => h
  | ins :: rest, hp, p0, outs, h =>
      chans_len_mix_channel_ports d2l gin pc rest
        (fun x hx => hp x (List.mem_cons_of_mem _ hx)) (p0 + 1)
        (chans_len_mix_port_into_outputs d2l gin pc p0 (hp ins (by simp)) h)

theorem getD_mix_channel_ports (d2l : ℚ → ℚ) (gin : ℚ) (pc : Nat) {n : Nat} :
    ∀ (ports : List Buf), bufs_len n ports → ∀ (p0 : Nat) (outs : List EngineChan),
      chans_len n outs → ∀ (i : Nat), i < outs.length →
      ∀ (q : Nat), q < (outs.getD i no_chan).bufs.length → ∀ (j : Nat), j < n →
      (((mix_channel_ports d2l gin pc p0 ports outs).getD i no_chan).bufs.getD q []).getD j 0 =
        ((outs.getD i no_chan).bufs.getD q []).getD j 0 +
          ports_sum (fun p ins =>
            if use_this_input pc p q
            then ins.getD j 0 * (gin * get_linear_gain d2l (outs.getD i no_chan).state)
            else 0) p0 ports := by
  intro ports
  induction ports with
  | nil =>
      intro _ p0 outs _ i hi q hq j hj
      simp [mix_channel_ports, ports_sum]
  | cons ins rest ih =>
      intro hp p0 outs hout i hi q hq j hj
      have hins : ins.length = n := hp ins (by simp)
      have hrest : bufs_len n rest := fun x hx => hp x (List.mem_cons_of_mem _ hx)
      have hout' : chans_len n (mix_port_into_outputs d2l gin pc p0 ins outs) :=
        chans_len_mix_port_into_outputs d2l gin pc p0 hins hout
      have hi' : i < (mix_port_into_outputs d2l gin pc p0 ins outs).length := by
        rw [length_mix_port_into_outputs]; exact hi
      have hgetD := getD_mix_port_into_outputs d2l gin pc p0 ins outs i hi
      have hq' : q < ((mix_port_into_outputs d2l gin pc p0 ins outs).getD i
          no_chan).bufs.length := by
        rw [hgetD]
        simpa [length_mix_port_into_bufs] using hq
      have hstep := ih hrest (p0 + 1) _ hout' i hi' q hq' j hj
      simp only [mix_channel_ports]
      rw [hstep]
      have hstate : ((mix_port_into_outputs d2l gin pc p0 ins outs).getD i
          no_chan).state = (outs.getD i no_chan).state := by
        rw [hgetD]
      have hBn : ((outs.getD i no_chan).bufs.getD q []).length = n :=
        hout (outs.getD i no_chan) (getD_mem no_chan outs i hi)
          ((outs.getD i no_chan).bufs.getD q []) (getD_mem [] _ q hq)
      have hval : (((mix_port_into_outputs d2l gin pc p0 ins outs).getD i
          no_chan).bufs.getD q []).getD j 0 =
          ((outs.getD i no_chan).bufs.getD q []).getD j 0 +
            (if use_this_input pc p0 q
             then ins.getD j 0 * (gin * get_linear_gain d2l (outs.getD i no_chan).state)
             else 0) := by
        rw [hgetD]
        have hmpb := getD_mix_port_into_bufs
          (gin * get_linear_gain d2l (outs.getD i no_chan).state) pc p0 ins
          (outs.getD i no_chan).bufs 0 q hq
        simp only [Nat.zero_add] at hmpb
        simp only [hmpb]
        split
        · rw [getD_add_scaled _ _ _ j (by rw [hBn]; exact hj) (by rw [hins]; exact hj)]
        · rw [add_zero]
      rw [hval, hstate]
      show _ + _ + _ = _ + ports_sum _ p0 (ins :: rest)
      simp only [ports_sum]
      ring

/-! Lemmas on the outer loop over input channels. -/

theorem length_mix_inputs (d2l : ℚ → ℚ) (s : Bool) :
    ∀ (ics outs : List EngineChan), (mix_inputs d2l s ics outs).length = outs.length
  | [], _ => rfl
  | ic :: rest, outs => by
      simp only [mix_inputs]
      rw [length_mix_inputs d2l s rest _, length_mix_channel_ports]

theorem state_mix_inputs (d2l : ℚ → ℚ) (s : Bool) :
    ∀ (ics outs : List EngineChan) (i : Nat), i < outs.length →
      ((mix_inputs d2l s ics outs).getD i no_chan).state = (outs.getD i no_chan).state
  | [], _, _, _ => rfl
  | ic :: rest, outs, i, h => by
      simp only [mix_inputs]
      rw [state_mix_inputs d2l s rest _ i (by rw [length_mix_channel_ports]; exact h),
        state_mix_channel_ports d2l _ _ ic.bufs 0 outs i h]

theorem bufs_length_mix_inputs (d2l : ℚ → ℚ) (s : Bool) :
    ∀ (ics outs : List EngineChan) (i : Nat), i < outs.length →
      ((mix_inputs d2l s ics outs).getD i no_chan).bufs.length =
        (outs.getD i no_chan).bufs.length
  | [], _, _, _ => rfl
  | ic :: rest, outs, i, h => by
      simp only [mix_inputs]
      rw [bufs_length_mix_inputs d2l s rest _ i (by rw [length_mix_channel_ports]; exact h),
        bufs_length_mix_channel_ports d2l _ _ ic.bufs 0 outs i h]

theorem chans_len_mix_inputs {n : Nat} (d2l : ℚ → ℚ) (s : Bool) :
    ∀ (ics : List EngineChan), chans_len n ics → ∀ {outs : List EngineChan},
      chans_len n outs → chans_len n (mix_inputs d2l s ics outs)
  | [], _, _, h => h
  | ic :: rest, hics, outs, h =>
      chans_len_mix_inputs d2l s rest
        (fun x hx => hics x (List.mem_cons_of_mem _ hx))
        (chans_len_mix_channel_ports d2l _ _ ic.bufs (hics ic (by simp)) 0 h)

theorem getD_mix_inputs (d2l : ℚ → ℚ) (s : Bool) {n : Nat} :
    ∀ (ics : List EngineChan), chans_len n ics → ∀ (outs : List EngineChan),
      chans_len n outs → ∀ (i : Nat), i < outs.length →
      ∀ (q : Nat), q < (outs.getD i no_chan).bufs.length → ∀ (j : Nat), j < n →
      (((mix_inputs d2l s ics outs).getD i no_chan).bufs.getD q []).getD j 0 =
        ((outs.getD i no_chan).bufs.getD q []).getD j 0 +
          routed_sum d2l s ((outs.getD i no_chan).state) q j ics := by
  intro ics
  induction ics with
  | nil =>
      intro _ outs _ i hi q hq j hj
      simp [mix_inputs, routed_sum]
  | cons ic rest ih =>
      intro hics outs hout i hi q hq j hj
      have hbufs : bufs_len n ic.bufs := hics ic (by simp)
      have hrest : chans_len n rest := fun x hx => hics x (List.mem_cons_of_mem _ hx)
      have hout' : chans_len n (mix_channel_ports d2l
          (effective_input_gain d2l s ic.state) ic.bufs.length 0 ic.bufs outs) :=
        chans_len_mix_channel_ports d2l _ _ ic.bufs hbufs 0 hout
      have hi' : i < (mix_channel_ports d2l (effective_input_gain d2l s ic.state)
          ic.bufs.length 0 ic.bufs outs).length := by
        rw [length_mix_channel_ports]; exact hi
      have hq' : q < ((mix_channel_ports d2l (effective_input_gain d2l s ic.state)
          ic.bufs.length 0 ic.bufs outs).getD i no_chan).bufs.length := by
        rw [bufs_length_mix_channel_ports d2l _ _ ic.bufs 0 outs i hi]; exact hq
      have hstep := ih hrest _ hout' i hi' q hq' j hj
      have hstate : ((mix_channel_ports d2l (effective_input_gain d2l s ic.state)
          ic.bufs.length 0 ic.bufs outs).getD i no_chan).state =
          (outs.getD i no_chan).state :=
        state_mix_channel_ports d2l _ _ ic.bufs 0 outs i hi
      rw [hstate] at hstep
      simp only [mix_inputs]
      rw [hstep,
        getD_mix_channel_ports d2l _ _ ic.bufs hbufs 0 outs hout i hi q hq j hj]
      simp only [routed_sum]
      ring

/-! Lemmas on output zeroing. -/

theorem length_zero_buf (b : Buf) : (zero_buf b).length = b.length := by
  simp [zero_buf]

theorem getD_zero_buf (b : Buf) (j : Nat) (_h : j < b.length) :
    (zero_buf b).getD j 0 = 0 := by
  simp [zero_buf]

theorem length_zero_outputs (outs : List EngineChan) :
    (zero_outputs outs).length = outs.length := by
  simp [zero_outputs]

theorem getD_zero_outputs (outs : List EngineChan) (i : Nat) (h : i < outs.length) :
    (zero_outputs outs).getD i no_chan =
      { outs.getD i no_chan with bufs := (outs.getD i no_chan).bufs.map zero_buf } :=
  getD_map_of_lt _ no_chan no_chan outs i h

theorem chans_len_zero_outputs {n : Nat} {outs : List EngineChan} (h : chans_len n outs) :
    chans_len n (zero_outputs outs) := by
  intro c hc
  simp only [zero_outputs, List.mem_map] at hc
  obtain ⟨oc, hoc, rfl⟩ := hc
  intro b hb
  simp only [List.mem_map] at hb
  obtain ⟨b0, hb0, rfl⟩ := hb
  rw [length_zero_buf]
  exact h oc hoc b0 hb0

/-- Mixing formula of the per-block callback: after the zeroing pass and the
full input loop, each output sample is exactly the routed additive sum;
nothing of the output buffers' previous contents remains. -/
theorem process_block_formula (d2l : ℚ → ℚ) {n : Nat} (inputs outs : List EngineChan)
    (hin : chans_len n inputs) (hout : chans_len n outs)
    (i : Nat) (hi : i < outs.length) (q : Nat) (hq : q < (outs.getD i no_chan).bufs.length)
    (j : Nat) (hj : j < n) :
    (((process_block d2l inputs outs).getD i no_chan).bufs.getD q []).getD j 0 =
      routed_sum d2l (any_soloed_of inputs) ((outs.getD i no_chan).state) q j inputs := by
  unfold process_block
  have hz : chans_len n (zero_outputs outs) := chans_len_zero_outputs hout
  have hi' : i < (zero_outputs outs).length := by rw [length_zero_outputs]; exact hi
  have hq' : q < ((zero_outputs outs).getD i no_chan).bufs.length := by
    rw [getD_zero_outputs outs i hi]
    simpa using hq
  have h := getD_mix_inputs d2l (any_soloed_of inputs) inputs hin
    (zero_outputs outs) hz i hi' q hq' j hj
  rw [h, getD_zero_outputs outs i hi]
  have hmap : ((outs.getD i no_chan).bufs.map zero_buf).getD q [] =
      zero_buf ((outs.getD i no_chan).bufs.getD q []) :=
    getD_map_of_lt zero_buf [] [] _ q hq
  have hBn : ((outs.getD i no_chan).bufs.getD q []).length = n :=
    hout (outs.getD i no_chan) (getD_mem no_chan outs i hi)
      ((outs.getD i no_chan).bufs.getD q []) (getD_mem [] _ q hq)
  simp only [hmap]
  rw [getD_zero_buf _ j (by rw [hBn]; exact hj), zero_add]

/-- C1: in every invocation of the per-block process callback in which the
quit flag is not set, every output buffer is first zeroed and then each
output sample equals the additive sum, over all input ports routed to that
output port, of the input sample multiplied by the combined gain (effective
input gain times output channel gain); contributions accumulate (sum, not
overwrite), so no content from a previous block persists in any output
buffer — the value depends only on the inputs, the gains and the routing,
never on the output buffers' prior contents. -/
theorem C1_process_zeroes_then_sums (d2l : ℚ → ℚ) (n : Nat)
    (inputs outs : List EngineChan)
    (hin : chans_len n inputs) (hout : chans_len n outs)
    (i : Nat) (hi : i < outs.length) (q : Nat)
    (hq : q < (outs.getD i no_chan).bufs.length) (j : Nat) (hj : j < n) :
    (process d2l false inputs outs).1 = JackControl.Continue ∧
      ((((process d2l false inputs outs).2.getD i no_chan).bufs.getD q []).getD j 0 =
        routed_sum d2l (any_soloed_of inputs) ((outs.getD i no_chan).state) q j inputs) := by
  refine ⟨rfl, ?_⟩
  show (((process_block d2l inputs outs).getD i no_chan).bufs.getD q []).getD j 0 = _
  exact process_block_formula d2l inputs outs hin hout i hi q hq j hj

/-- Witness for C1: a concrete stereo input over a two-sample block mixed at
unity gain into a stereo output whose buffers held stale content. -/
theorem C1_witness :
    (process (fun _ => 1) false
        [{ state := flat_state "in" 2, bufs := [[1, 2], [3, 4]] }]
        [{ state := flat_state "out" 2, bufs := [[9, 9], [9, 9]] }]).1 =
      JackControl.Continue ∧
      ((((process (fun _ => 1) false
          [{ state := flat_state "in" 2, bufs := [[1, 2], [3, 4]] }]
          [{ state := flat_state "out" 2, bufs := [[9, 9], [9, 9]] }]).2.getD 0
          no_chan).bufs.getD 0 []).getD 1 0 =
        routed_sum (fun _ => 1)
          (any_soloed_of [{ state := flat_state "in" 2, bufs := [[1, 2], [3, 4]] }])
          ((([{ state := flat_state "out" 2, bufs := [[9, 9], [9, 9]] }] :
            List EngineChan).getD 0 no_chan).state) 0 1
          [{ state := flat_state "in" 2, bufs := [[1, 2], [3, 4]] }]) :=
  C1_process_zeroes_then_sums (fun _ => 1) 2
    [{ state := flat_state "in" 2, bufs := [[1, 2], [3, 4]] }]
    [{ state := flat_state "out" 2, bufs := [[9, 9], [9, 9]] }]
    (by unfold chans_len; decide) (by unfold chans_len; decide)
    0 (by decide) 0 (by decide) 1 (by decide)

/-! Lemmas for zero-gain channels: a channel whose effective input gain is 0
leaves every output buffer exactly as it was. -/

theorem mix_port_into_bufs_zero {n : Nat} (pc p : Nat) {ins : Buf} (hins : ins.length = n) :
    ∀ (bufs : List Buf), bufs_len n bufs → ∀ (k : Nat),
      mix_port_into_bufs 0 pc p ins k bufs = bufs
  | [], _, _ => rfl
  | b :: bufs, hb, k => by
      simp only [mix_port_into_bufs]
      rw [mix_port_into_bufs_zero pc p hins bufs
        (fun x hx => hb x (List.mem_cons_of_mem _ hx)) (k + 1)]
      congr 1
      split
      · exact add_scaled_zero_gain ins b (by rw [hb b (by simp), hins])
      · rfl

theorem mix_port_into_outputs_zero {n : Nat} (d2l : ℚ → ℚ) (pc p : Nat) {ins : Buf}
    (hins : ins.length = n) :
    ∀ (outs : List EngineChan), chans_len n outs →
      mix_port_into_outputs d2l 0 pc p ins outs = outs
  | [], _ => rfl
  | oc :: outs, h => by
      show _ :: mix_port_into_outputs d2l 0 pc p ins outs = _
      rw [mix_port_into_outputs_zero d2l pc p hins outs
        (fun x hx => h x (List.mem_cons_of_mem _ hx))]
      congr 1
      show { state := oc.state,
             bufs := mix_port_into_bufs (0 * get_linear_gain d2l oc.state)
               pc p ins 0 oc.bufs } = oc
      rw [zero_mul, mix_port_into_bufs_zero pc p hins oc.bufs (h oc (by simp)) 0]

theorem mix_channel_ports_zero {n : Nat} (d2l : ℚ → ℚ) (pc : Nat) :
    ∀ (ports : List Buf), bufs_len n ports → ∀ (p0 : Nat) (outs : List EngineChan),
      chans_len n outs → mix_channel_ports d2l 0 pc p0 ports outs = outs
  | [], _, _, _, _ => rfl
  | ins :: rest, hp, p0, outs, h => by
      simp only [mix_channel_ports]
      rw [mix_port_into_outputs_zero d2l pc p0 (hp ins (by simp)) outs h]
      exact mix_channel_ports_zero d2l pc rest
        (fun x hx => hp x (List.mem_cons_of_mem _ hx)) (p0 + 1) outs h

theorem mix_inputs_append (d2l : ℚ → ℚ) (s : Bool) :
    ∀ (l1 l2 outs : List EngineChan),
      mix_inputs d2l s (l1 ++ l2) outs = mix_inputs d2l s l2 (mix_inputs d2l s l1 outs)
  | [], _, _ => rfl
  | ic :: l1, l2, outs => by
      simp only [List.cons_append, mix_inputs]
      exact mix_inputs_append d2l s l1 l2 _

theorem any_soloed_of_append_cons (l1 l2 : List EngineChan) (ic : EngineChan)
    (h : ic.state.soloed = false) :
    any_soloed_of (l1 ++ ic :: l2) = any_soloed_of (l1 ++ l2) := by
  simp [any_soloed_of, List.any_append, List.any_cons, h]

theorem chans_len_append_left {n : Nat} {l1 l2 : List EngineChan}
    (h : chans_len n (l1 ++ l2)) : chans_len n l1 :=
  fun c hc => h c (List.mem_append_left _ hc)

theorem chans_len_append_right {n : Nat} {l1 l2 : List EngineChan}
    (h : chans_len n (l1 ++ l2)) : chans_len n l2 :=
  fun c hc => h c (List.mem_append_right _ hc)

/-- C2: the effective input gain is 0 if the channel is muted; otherwise 0
if some input channel is soloed and this channel is not; otherwise
`db_to_linear(volume_db)`.  Consequently, when any input is soloed, a
non-soloed, non-muted input contributes exactly zero to every output
(removing it from the input list leaves every output buffer unchanged,
whatever its volume), and a muted+soloed input also contributes zero
(replacing its buffers by silence changes nothing — mute dominates solo). -/
theorem C2_gain_and_solo_exclusivity (d2l : ℚ → ℚ) (n : Nat) :
    (∀ (s : Bool) (st : ChannelState), st.muted = true →
      effective_input_gain d2l s st = 0) ∧
    (∀ (st : ChannelState), st.soloed = false → effective_input_gain d2l true st = 0) ∧
    (∀ (s : Bool) (st : ChannelState), st.muted = false → (s = true → st.soloed = true) →
      effective_input_gain d2l s st = d2l st.volume_db) ∧
    (∀ (l1 l2 : List EngineChan) (ic : EngineChan) (outs : List EngineChan),
      chans_len n (l1 ++ ic :: l2) → chans_len n outs →
      any_soloed_of (l1 ++ ic :: l2) = true →
      ic.state.soloed = false → ic.state.muted = false →
      process_block d2l (l1 ++ ic :: l2) outs = process_block d2l (l1 ++ l2) outs) ∧
    (∀ (l1 l2 : List EngineChan) (ic : EngineChan) (outs : List EngineChan),
      chans_len n (l1 ++ ic :: l2) → chans_len n outs → ic.state.muted = true →
      process_block d2l (l1 ++ ic :: l2) outs =
        process_block d2l (l1 ++ { ic with bufs := ic.bufs.map zero_buf } :: l2) outs) := by
  refine ⟨?_, ?_, ?_, ?_, ?_⟩
  · intro s st h; simp [effective_input_gain, h]
  · intro st h; simp [effective_input_gain, h]
  · intro s st hm hs
    simp only [effective_input_gain, hm, if_false, Bool.false_eq_true]
    cases s with
    | false => simp
    | true => simp [hs rfl]
  · intro l1 l2 ic outs hfull hout hany hsol hmut
    unfold process_block
    rw [any_soloed_of_append_cons l1 l2 ic hsol]
    have h2 : any_soloed_of (l1 ++ l2) = true := by
      rw [← any_soloed_of_append_cons l1 l2 ic hsol]; exact hany
    rw [h2]
    have hz := chans_len_zero_outputs hout
    rw [mix_inputs_append, mix_inputs_append]
    have hl1 : chans_len n l1 := chans_len_append_left hfull
    have hX : chans_len n (mix_inputs d2l true l1 (zero_outputs outs)) :=
      chans_len_mix_inputs d2l true l1 hl1 hz
    have htail := chans_len_append_right hfull
    have hbufs : bufs_len n ic.bufs := htail ic (by simp)
    simp only [mix_inputs]
    rw [show effective_input_gain d2l true ic.state = 0 by
      simp [effective_input_gain, hsol]]
    rw [mix_channel_ports_zero d2l _ ic.bufs hbufs 0 _ hX]
  · intro l1 l2 ic outs hfull hout hmut
    unfold process_block
    have hsame : any_soloed_of (l1 ++ { ic with bufs := ic.bufs.map zero_buf } :: l2) =
        any_soloed_of (l1 ++ ic :: l2) := by
      simp [any_soloed_of, List.any_append, List.any_cons]
    rw [hsame]
    have hz := chans_len_zero_outputs hout
    rw [mix_inputs_append, mix_inputs_append]
    have hl1 : chans_len n l1 := chans_len_append_left hfull
    have hX : chans_len n
        (mix_inputs d2l (any_soloed_of (l1 ++ ic :: l2)) l1 (zero_outputs outs)) :=
      chans_len_mix_inputs d2l _ l1 hl1 hz
    have htail := chans_len_append_right hfull
    have hbufs : bufs_len n ic.bufs := htail ic (by simp)
    have hbufs2 : bufs_len n (ic.bufs.map zero_buf) := by
      intro b hb
      simp only [List.mem_map] at hb
      obtain ⟨b0, hb0, rfl⟩ := hb
      rw [length_zero_buf]
      exact hbufs b0 hb0
    simp only [mix_inputs]
    rw [show effective_input_gain d2l (any_soloed_of (l1 ++ ic :: l2)) ic.state = 0 by
      simp [effective_input_gain, hmut]]
    rw [mix_channel_ports_zero d2l _ ic.bufs hbufs 0 _ hX,
      mix_channel_ports_zero d2l _ (ic.bufs.map zero_buf) hbufs2 0 _ hX]

/-- Witness for C2: with one soloed channel present, dropping a concrete
non-soloed, non-muted channel leaves the mixed output unchanged. -/
theorem C2_witness :
    process_block (fun _ => 1)
        [{ state := { flat_state "solo" 1 with soloed := true }, bufs := [[2, 2]] },
         { state := flat_state "other" 1, bufs := [[7, 7]] }]
        [{ state := flat_state "out" 1, bufs := [[0, 0]] }] =
      process_block (fun _ => 1)
        [{ state := { flat_state "solo" 1 with soloed := true }, bufs := [[2, 2]] }]
        [{ state := flat_state "out" 1, bufs := [[0, 0]] }] :=
  (C2_gain_and_solo_exclusivity (fun _ => 1) 2).2.2.2.1
    [{ state := { flat_state "solo" 1 with soloed := true }, bufs := [[2, 2]] }] []
    { state := flat_state "other" 1, bufs := [[7, 7]] }
    [{ state := flat_state "out" 1, bufs := [[0, 0]] }]
    (by unfold chans_len; decide) (by unfold chans_len; decide)
    (by decide) (by decide) (by decide)

theorem add_scaled_one_zero_buf :
    ∀ (ins b : Buf), b.length = ins.length → add_scaled 1 ins (zero_buf b) = ins
  | [], [], _ => rfl
  | i :: ins, b :: bs, h => by
      show (0 + i * 1) :: add_scaled 1 ins (zero_buf bs) = i :: ins
      rw [add_scaled_one_zero_buf ins bs (by simpa using h), mul_one, zero_add]
  | [], b :: bs, h => by simp at h
  | i :: ins, [], h => by simp at h

/-- C3: a mono input channel (one port) contributes to every output port of
every output channel — `use_this_input` is identically true for
`port_count = 1`; in particular one mono input at 0 dB, unmuted and
unsoloed, feeding one unmuted stereo output at 0 dB reproduces the input
signal — and hence its peak — on both output ports. -/
theorem C3_mono_fan_out (d2l : ℚ → ℚ) :
    (∀ (p out_p : Nat), use_this_input 1 p out_p = true) ∧
    (∀ (stIn stOut : ChannelState) (ins b0 b1 : Buf) (pk : ℚ),
      stIn.muted = false → stIn.soloed = false → stIn.volume_db = 0 →
      stOut.muted = false → stOut.volume_db = 0 → d2l 0 = 1 →
      b0.length = ins.length → b1.length = ins.length →
      compute_peak ins = pk →
      process_block d2l [{ state := stIn, bufs := [ins] }]
          [{ state := stOut, bufs := [b0, b1] }] =
        [{ state := stOut, bufs := [ins, ins] }] ∧
      compute_peak (((process_block d2l [{ state := stIn, bufs := [ins] }]
          [{ state := stOut, bufs := [b0, b1] }]).getD 0 no_chan).bufs.getD 0 []) = pk ∧
      compute_peak (((process_block d2l [{ state := stIn, bufs := [ins] }]
          [{ state := stOut, bufs := [b0, b1] }]).getD 0 no_chan).bufs.getD 1 []) = pk) := by
  constructor
  · intro p out_p; simp [use_this_input]
  · intro stIn stOut ins b0 b1 pk hmutI hsol hvolI hmutO hvolO hd2l hl0 hl1 hpk
    have hs : any_soloed_of [{ state := stIn, bufs := [ins] }] = false := by
      simp [any_soloed_of, hsol]
    have hg : effective_input_gain d2l false stIn = 1 := by
      simp [effective_input_gain, hmutI, hvolI, hd2l]
    have hgo : get_linear_gain d2l stOut = 1 := by
      simp [get_linear_gain, hmutO, hvolO, hd2l]
    have hmain : process_block d2l [{ state := stIn, bufs := [ins] }]
        [{ state := stOut, bufs := [b0, b1] }] =
        [{ state := stOut, bufs := [ins, ins] }] := by
      simp only [process_block, hs, zero_outputs, List.map_cons, List.map_nil,
        mix_inputs, mix_channel_ports, mix_port_into_outputs, hg, hgo, mul_one,
        mix_port_into_bufs, use_this_input, List.length_cons, List.length_nil]
      norm_num
      rw [add_scaled_one_zero_buf ins b0 hl0, add_scaled_one_zero_buf ins b1 hl1]
      exact ⟨rfl, rfl⟩
    refine ⟨hmain, ?_, ?_⟩
    · rw [hmain]; simpa using hpk
    · rw [hmain]; simpa using hpk

/-- Witness for C3 at a concrete mono block of peak one half. -/
theorem C3_witness :
    process_block (fun _ => 1) [{ state := flat_state "mic" 1, bufs := [[1/2, 1/4]] }]
        [{ state := flat_state "main" 2, bufs := [[9, 9], [3, 3]] }] =
      [{ state := flat_state "main" 2, bufs := [[1/2, 1/4], [1/2, 1/4]] }] ∧
    compute_peak (((process_block (fun _ => 1)
        [{ state := flat_state "mic" 1, bufs := [[1/2, 1/4]] }]
        [{ state := flat_state "main" 2, bufs := [[9, 9], [3, 3]] }]).getD 0
        no_chan).bufs.getD 0 []) = 1/2 ∧
    compute_peak (((process_block (fun _ => 1)
        [{ state := flat_state "mic" 1, bufs := [[1/2, 1/4]] }]
        [{ state := flat_state "main" 2, bufs := [[9, 9], [3, 3]] }]).getD 0
        no_chan).bufs.getD 1 []) = 1/2 :=
  (C3_mono_fan_out (fun _ => 1)).2 (flat_state "mic" 1) (flat_state "main" 2)
    [1/2, 1/4] [9, 9] [3, 3] (1/2) rfl rfl rfl rfl rfl rfl (by decide) (by decide)
    (by norm_num [compute_peak, List.foldl, max_def, abs])

/-- C10: for a stereo input channel (`port_count = 2`) the routing predicate
admits an input port at an output port of index below 2 only when the
indices match (the left-fallback branch needs an output port index of at
least `port_count = 2`, so it is never taken when channels have at most 2
ports); consequently, mixed into a mono output channel, only input port 0
(left) contributes and input port 1 (right) is dropped entirely — the mono
output buffer is the left input scaled by the combined gain, independent of
the right buffer. -/
theorem C10_stereo_to_mono_drops_right (d2l : ℚ → ℚ) :
    (∀ (p out_p : Nat), out_p < 2 → (use_this_input 2 p out_p = true ↔ p = out_p)) ∧
    (∀ (stIn stOut : ChannelState) (l r b : Buf),
      process_block d2l [{ state := stIn, bufs := [l, r] }]
          [{ state := stOut, bufs := [b] }] =
        [{ state := stOut,
           bufs := [add_scaled
             (effective_input_gain d2l stIn.soloed stIn * get_linear_gain d2l stOut)
             l (zero_buf b)] }]) := by
  constructor
  · intro p out_p hlt
    constructor
    · intro h
      simp only [use_this_input] at h
      have hcases : out_p = 0 ∨ out_p = 1 := by omega
      rcases hcases with h0 | h1
      · subst h0
        by_cases hp : p = 0
        · exact hp
        · simp [hp] at h
      · subst h1
        by_cases hp : p = 1
        · exact hp
        · simp [hp] at h
    · intro h
      subst h
      simp [use_this_input]
  · intro stIn stOut l r b
    have hu0 : use_this_input 2 0 0 = true := by decide
    have hu1 : use_this_input 2 1 0 = false := by decide
    simp only [process_block, any_soloed_of, List.any_cons, List.any_nil,
      Bool.or_false, zero_outputs, List.map_cons, List.map_nil, mix_inputs,
      List.length_cons, List.length_nil, mix_channel_ports, mix_port_into_outputs,
      mix_port_into_bufs, hu0, hu1, if_true, if_false, Bool.false_eq_true]

/-- Witness for C10: right-port sample values do not reach a mono output. -/
theorem C10_witness :
    (use_this_input 2 1 0 = true ↔ (1 : Nat) = 0) ∧
    process_block (fun _ => 1) [{ state := flat_state "in" 2, bufs := [[1, 2], [5, 6]] }]
        [{ state := flat_state "out" 1, bufs := [[9, 9]] }] =
      [{ state := flat_state "out" 1,
         bufs := [add_scaled
           (effective_input_gain (fun _ => 1) (flat_state "in" 2).soloed
              (flat_state "in" 2) *
            get_linear_gain (fun _ => 1) (flat_state "out" 1))
           [1, 2] (zero_buf [9, 9])] }] :=
  ⟨(C10_stereo_to_mono_drops_right (fun _ => 1)).1 1 0 (by decide),
   (C10_stereo_to_mono_drops_right (fun _ => 1)).2 (flat_state "in" 2)
     (flat_state "out" 1) [1, 2] [5, 6] [9, 9]⟩

theorem update_meter_cases (st : ChannelState) (peaks : ℚ × ℚ) (dur now : ℚ) :
    (st.port_count = 0 → st.update_meter peaks dur now = st) ∧
    (st.port_count = 1 → st.update_meter peaks dur now = update_slot0 st peaks dur now) ∧
    (2 ≤ st.port_count →
      st.update_meter peaks dur now =
        update_slot1 (update_slot0 st peaks dur now) peaks dur now) := by
  unfold ChannelState.update_meter
  refine ⟨?_, ?_, ?_⟩ <;> intro h
  · simp [h, update_slot0]
  · simp [h, update_slot0]
  · have h0 : 0 < st.port_count := by omega
    have h1 : 1 < st.port_count := by omega
    simp only [h0, if_pos, update_slot0]
    simp [h1]

theorem hold_step_spec (peak hold htime dur now : ℚ) :
    (hold < peak → hold_step peak hold htime dur now = (peak, now)) ∧
    (¬ hold < peak → dur < elapsed now htime →
      hold_step peak hold htime dur now = (peak, now)) ∧
    (¬ hold < peak → ¬ dur < elapsed now htime →
      hold_step peak hold htime dur now = (hold, htime)) := by
  unfold hold_step
  refine ⟨?_, ?_, ?_⟩
  · intro h; simp [h]
  · intro h h2; simp [h, h2]
  · intro h h2; simp [h, h2]

/-- Counterexample to C4 as stated: the claim says a new peak greater than
*or equal to* the current hold resets the hold timer, but
`ChannelState::update_meter` uses the strict comparison
`peaks[i] > self.peak_hold[i]`.  With hold 1 set at time 0, hold duration 5
and a new peak exactly 1 arriving at time 1, the claim predicts
`peak_hold_time = 1` while the code leaves it at 0. -/
theorem C4_counterexample :
    (1 : ℚ) ≥ ({ flat_state "m" 1 with peak_hold := (1, 0) } : ChannelState).peak_hold.1 ∧
    (({ flat_state "m" 1 with
        peak_hold := (1, 0) } : ChannelState).update_meter (1, 0) 5 1).peak_hold_time.1
      = 0 ∧
    ¬ ((({ flat_state "m" 1 with
        peak_hold := (1, 0) } : ChannelState).update_meter (1, 0) 5 1).peak_hold_time.1
      = 1) := by
  refine ⟨by norm_num [flat_state], ?_, ?_⟩ <;>
    norm_num [ChannelState.update_meter, update_slot0, update_slot1, hold_step,
      elapsed, flat_state, max_def]

/-- C4 (amended): for every `update_meter` call and every port index below
`port_count`, if the new peak is *strictly greater* than the current hold,
the hold snaps up to the new peak and the hold timer resets; otherwise, if
the elapsed time since the timer was last reset exceeds the hold duration,
the hold snaps to the new peak (equal or lower) and the timer resets; in
all other cases both are unchanged.  Slots at or above `port_count` are
never touched, and `current_peaks` takes the new value on updated slots. -/
theorem C4_peak_hold_amended (st : ChannelState) (peaks : ℚ × ℚ) (dur now : ℚ) :
    (0 < st.port_count →
      (st.update_meter peaks dur now).current_peaks.1 = peaks.1 ∧
      ((st.update_meter peaks dur now).peak_hold.1,
        (st.update_meter peaks dur now).peak_hold_time.1) =
        hold_step peaks.1 st.peak_hold.1 st.peak_hold_time.1 dur now) ∧
    (1 < st.port_count →
      (st.update_meter peaks dur now).current_peaks.2 = peaks.2 ∧
      ((st.update_meter peaks dur now).peak_hold.2,
        (st.update_meter peaks dur now).peak_hold_time.2) =
        hold_step peaks.2 st.peak_hold.2 st.peak_hold_time.2 dur now) ∧
    (¬ 0 < st.port_count → st.update_meter peaks dur now = st) ∧
    (¬ 1 < st.port_count →
      (st.update_meter peaks dur now).current_peaks.2 = st.current_peaks.2 ∧
      (st.update_meter peaks dur now).peak_hold.2 = st.peak_hold.2 ∧
      (st.update_meter peaks dur now).peak_hold_time.2 = st.peak_hold_time.2) ∧
    (∀ (peak hold htime : ℚ),
      (hold < peak → hold_step peak hold htime dur now = (peak, now)) ∧
      (¬ hold < peak → dur < elapsed now htime →
        hold_step peak hold htime dur now = (peak, now)) ∧
      (¬ hold < peak → ¬ dur < elapsed now htime →
        hold_step peak hold htime dur now = (hold, htime))) := by
  obtain ⟨hc0, hc1, hc2⟩ := update_meter_cases st peaks dur now
  refine ⟨?_, ?_, ?_, ?_, fun peak hold htime => hold_step_spec peak hold htime dur now⟩
  · intro h
    by_cases h2 : 2 ≤ st.port_count
    · rw [hc2 h2]
      simp [update_slot0, update_slot1]
    · have : st.port_count = 1 := by omega
      rw [hc1 this]
      simp [update_slot0]
  · intro h
    have h2 : 2 ≤ st.port_count := by omega
    rw [hc2 h2]
    simp [update_slot0, update_slot1]
  · intro h
    have : st.port_count = 0 := by omega
    rw [hc0 this]
  · intro h
    by_cases h0 : st.port_count = 0
    · rw [hc0 h0]
      exact ⟨rfl, rfl, rfl⟩
    · have : st.port_count = 1 := by omega
      rw [hc1 this]
      simp [update_slot0]

/-- Witness for C4 (amended) at a concrete strictly-greater peak. -/
theorem C4_witness :
    (({ flat_state "m" 1 with peak_hold := (1, 0) } : ChannelState).update_meter
        (2, 0) 5 1).current_peaks.1 = 2 ∧
    ((({ flat_state "m" 1 with peak_hold := (1, 0) } : ChannelState).update_meter
        (2, 0) 5 1).peak_hold.1,
      (({ flat_state "m" 1 with peak_hold := (1, 0) } : ChannelState).update_meter
        (2, 0) 5 1).peak_hold_time.1) = ((2 : ℚ), (1 : ℚ)) := by
  have h := (C4_peak_hold_amended
    ({ flat_state "m" 1 with peak_hold := (1, 0) } : ChannelState) (2, 0) 5 1).1
    (by norm_num [flat_state])
  refine ⟨h.1, ?_⟩
  rw [h.2]
  norm_num [flat_state, hold_step]

theorem volume_ops_bounded :
    ∀ (ops : List VolumeOp) (v : ℚ), VOLUME_MIN_DB ≤ v → v ≤ VOLUME_MAX_DB →
      (∀ x, VolumeOp.engineSetVolume x ∈ ops → VOLUME_MIN_DB ≤ x ∧ x ≤ VOLUME_MAX_DB) →
      VOLUME_MIN_DB ≤ run_volume_ops v ops ∧ run_volume_ops v ops ≤ VOLUME_MAX_DB
  | [], _, h1, h2, _ => ⟨h1, h2⟩
  | op :: rest, v, h1, h2, hset => by
      have hstep : VOLUME_MIN_DB ≤ apply_volume_op v op ∧
          apply_volume_op v op ≤ VOLUME_MAX_DB := by
        cases op with
        | adjustVolume d =>
            simpa [apply_volume_op] using clampV_mem (v + d) VOLUME_MIN_DB VOLUME_MAX_DB
              (by norm_num [VOLUME_MIN_DB, VOLUME_MAX_DB])
        | engineSetVolume x => exact hset x (by simp)
        | resetToZero => norm_num [apply_volume_op, VOLUME_MIN_DB, VOLUME_MAX_DB]
      exact volume_ops_bounded rest (apply_volume_op v op) hstep.1 hstep.2
        (fun x hx => hset x (List.mem_cons_of_mem _ hx))

/-- Counterexample to C5 as stated: the engine applies a `Set*Volume`
message's payload without clamping (src/audio/engine.rs lines 210-219), so
the single set-to-a-value operation with payload 100 dB, starting from the
in-range volume 0, leaves 100 — outside `[-60, 12]`; clamping is not total
over the cited operations. -/
theorem C5_counterexample :
    run_volume_ops 0 [VolumeOp.engineSetVolume 100] = 100 ∧
    ¬ (VOLUME_MIN_DB ≤ run_volume_ops 0 [VolumeOp.engineSetVolume 100] ∧
       run_volume_ops 0 [VolumeOp.engineSetVolume 100] ≤ VOLUME_MAX_DB) := by
  constructor
  · rfl
  · intro h
    have h2 := h.2
    norm_num [run_volume_ops, apply_volume_op, VOLUME_MAX_DB] at h2

/-- C5 (amended): starting from a volume satisfying
`-60.0 ≤ volume_db ≤ 12.0`, any sequence of adjust-by-delta (clamped by
`ChannelState::adjust_volume`), reset-to-0 dB and engine set operations
preserves the invariant, provided every set payload is itself within
`[-60, 12]` — which the supervising side guarantees, since it only ever
sends clamped values (`App::adjust_volume`, `App::reset_volume_to_zero`,
and the clamped initial volumes in `App::new`). -/
theorem C5_volume_invariant (ops : List VolumeOp) (v : ℚ)
    (h1 : VOLUME_MIN_DB ≤ v) (h2 : v ≤ VOLUME_MAX_DB)
    (hset : ∀ x, VolumeOp.engineSetVolume x ∈ ops →
      VOLUME_MIN_DB ≤ x ∧ x ≤ VOLUME_MAX_DB) :
    VOLUME_MIN_DB ≤ run_volume_ops v ops ∧ run_volume_ops v ops ≤ VOLUME_MAX_DB :=
  volume_ops_bounded ops v h1 h2 hset

/-- Witness for C5 (amended) on a concrete operation sequence. -/
theorem C5_witness :
    VOLUME_MIN_DB ≤ run_volume_ops 0
        [VolumeOp.adjustVolume 100, VolumeOp.engineSetVolume 12, VolumeOp.resetToZero] ∧
      run_volume_ops 0
        [VolumeOp.adjustVolume 100, VolumeOp.engineSetVolume 12, VolumeOp.resetToZero] ≤
        VOLUME_MAX_DB :=
  C5_volume_invariant
    [VolumeOp.adjustVolume 100, VolumeOp.engineSetVolume 12, VolumeOp.resetToZero] 0
    (by norm_num [VOLUME_MIN_DB]) (by norm_num [VOLUME_MAX_DB])
    (by
      intro x hx
      simp at hx
      subst hx
      norm_num [VOLUME_MIN_DB, VOLUME_MAX_DB])

theorem validate_channel_list_ok :
    ∀ (l : List ChannelConfig), validate_channel_list l = Except.ok () ↔
      ∀ c ∈ l, c.name ≠ "" ∧ c.ports ≠ [] ∧ c.ports.length ≤ 2
  | [] => by simp [validate_channel_list]
  | c :: rest => by
      simp only [validate_channel_list]
      by_cases h1 : c.name = ""
      · simp [h1]
      · by_cases h2 : c.ports = []
        · simp [h1, h2]
        · by_cases h3 : 2 < c.ports.length
          · simp only [h1, h2, h3, if_true, if_false, if_neg, if_pos]
            constructor
            · intro h; cases h
            · intro h
              have := (h c (by simp)).2.2
              omega
          · have h4 : c.ports.length ≤ 2 := by omega
            simp [h1, h2, h3, validate_channel_list_ok rest, h4]

/-- Counterexample to C6 as stated: a configuration whose input channel
carries the out-of-range initial volume 100 dB passes `Config::validate`
(which never examines `volume_db`), so construction proceeds instead of
failing. -/
theorem C6_counterexample :
    Config.validate
        { client_name := "m",
          inputs := [{ name := "a", ports := ["p"], volume_db := some 100 }],
          outputs := [{ name := "b", ports := ["q"], volume_db := none }] } =
      Except.ok () ∧
    ¬ ((100 : ℚ) ≤ VOLUME_MAX_DB) := by
  constructor
  · rfl
  · norm_num [VOLUME_MAX_DB]

/-- C6 (amended): validation before construction rejects exactly the
configurations with an empty client name, zero channels in either
direction, or a channel with an empty name, an empty port list, or more
than two ports; an out-of-range initial `volume_db` is *not* rejected —
instead `App::new` clamps it into `[-60.0, 12.0]` when building the initial
channel state, so every constructed initial volume is in range. -/
theorem C6_validation_amended (cfg : Config) :
    (cfg.validate = Except.ok () ↔
      (cfg.client_name ≠ "" ∧ cfg.inputs ≠ [] ∧ cfg.outputs ≠ [] ∧
        ∀ c ∈ cfg.inputs ++ cfg.outputs,
          c.name ≠ "" ∧ c.ports ≠ [] ∧ c.ports.length ≤ 2)) ∧
    (∀ c : ChannelConfig,
      VOLUME_MIN_DB ≤ initial_volume_db c ∧ initial_volume_db c ≤ VOLUME_MAX_DB) := by
  constructor
  · unfold Config.validate
    by_cases h1 : cfg.client_name = ""
    · simp [h1]
    · by_cases h2 : cfg.inputs = []
      · simp [h1, h2]
      · by_cases h3 : cfg.outputs = []
        · simp [h1, h2, h3]
        · simp only [h1, h2, h3, if_neg, if_false,
            List.forall_mem_append]
          cases hin : validate_channel_list cfg.inputs with
          | error e =>
              constructor
              · intro h; cases h
              · intro h
                have hok := (validate_channel_list_ok cfg.inputs).mpr h.2.2.2.1
                rw [hin] at hok
                cases hok
          | ok u =>
              cases u
              have hforall := (validate_channel_list_ok cfg.inputs).mp hin
              rw [validate_channel_list_ok cfg.outputs]
              constructor
              · intro h
                exact ⟨h1, h2, h3, hforall, h⟩
              · intro h
                exact h.2.2.2.2
  · intro c
    cases hv : c.volume_db with
    | some v =>
        simpa [initial_volume_db, hv] using clampV_mem v VOLUME_MIN_DB VOLUME_MAX_DB
          (by norm_num [VOLUME_MIN_DB, VOLUME_MAX_DB])
    | none =>
        norm_num [initial_volume_db, hv, VOLUME_MIN_DB, VOLUME_MAX_DB,
          VOLUME_DEFAULT_DB]

/-- Witness for C6 (amended): a concrete well-formed configuration
validates successfully. -/
theorem C6_witness :
    Config.validate
        { client_name := "m",
          inputs := [{ name := "a", ports := ["p"], volume_db := some 100 }],
          outputs := [{ name := "b", ports := ["q"], volume_db := none }] } =
      Except.ok () :=
  (C6_validation_amended _).1.mpr (by
    refine ⟨by decide, by decide, by decide, ?_⟩
    decide)

theorem push_of_full (q : ControlQueue) (m : ControlMsg)
    (h : q.capacity ≤ q.items.length) :
    q.push m = Except.error "Control message queue full" := by
  unfold ControlQueue.push
  rw [if_neg (Nat.not_lt.mpr h)]

theorem send_all_of_room :
    ∀ (msgs : List ControlMsg) (q : ControlQueue),
      q.items.length + msgs.length ≤ q.capacity →
      send_all q msgs =
        ({ q with items := q.items ++ msgs }, List.replicate msgs.length true)
  | [], q, _ => by simp [send_all]
  | m :: rest, q, h => by
      have hlt : q.items.length < q.capacity := by
        simp only [List.length_cons] at h
        omega
      have hrec := send_all_of_room rest { q with items := q.items ++ [m] }
        (by
          show (q.items ++ [m]).length + rest.length ≤ q.capacity
          simp only [List.length_append, List.length_singleton]
          simp only [List.length_cons] at h
          omega)
      simp only [send_all, ControlQueue.push, if_pos hlt, hrec, List.append_assoc,
        List.singleton_append, List.length_cons, List.replicate_succ]

theorem send_all_append :
    ∀ (l1 l2 : List ControlMsg) (q : ControlQueue),
      send_all q (l1 ++ l2) =
        ((send_all (send_all q l1).1 l2).1,
          (send_all q l1).2 ++ (send_all (send_all q l1).1 l2).2)
  | [], l2, q => by simp [send_all]
  | m :: l1, l2, q => by
      simp only [List.cons_append, send_all]
      cases q.push m with
      | ok q2 => simp [send_all_append l1 l2 q2]
      | error e => simp [send_all_append l1 l2 q]

/-- C7: the control channel is a bounded FIFO of capacity 64
(`CONTROL_RING_BUFFER_SIZE`): 65 consecutive sends with no intervening
receives succeed for sends 1 through 64 (queueing exactly those messages in
order) and fail on send 65 with the queue-full error; a failing push leaves
the queue contents unchanged and send never blocks. -/
theorem C7_queue_capacity (msgs : List ControlMsg) (h : msgs.length = 65) :
    send_all { capacity := CONTROL_RING_BUFFER_SIZE, items := [] } msgs =
      ({ capacity := CONTROL_RING_BUFFER_SIZE, items := msgs.take 64 },
        List.replicate 64 true ++ [false]) ∧
    (∀ (q : ControlQueue) (m : ControlMsg), q.capacity ≤ q.items.length →
      q.push m = Except.error "Control message queue full") := by
  refine ⟨?_, push_of_full⟩
  obtain ⟨m, hm⟩ : ∃ m, msgs.drop 64 = [m] := by
    have : (msgs.drop 64).length = 1 := by
      rw [List.length_drop, h]
    exact List.length_eq_one.mp this
  have hsplit : msgs = msgs.take 64 ++ [m] := by
    rw [← hm]
    exact (List.take_append_drop 64 msgs).symm
  have htake : (msgs.take 64).length = 64 := by
    rw [List.length_take, h]
    omega
  have hroom : send_all { capacity := CONTROL_RING_BUFFER_SIZE, items := [] }
      (msgs.take 64) =
      ({ capacity := CONTROL_RING_BUFFER_SIZE, items := msgs.take 64 },
        List.replicate 64 true) := by
    rw [send_all_of_room (msgs.take 64)
      { capacity := CONTROL_RING_BUFFER_SIZE, items := [] }
      (by simp [htake, CONTROL_RING_BUFFER_SIZE])]
    simp [htake]
  have hfull : send_all
      ({ capacity := CONTROL_RING_BUFFER_SIZE, items := msgs.take 64 } :
        ControlQueue) [m] =
      ({ capacity := CONTROL_RING_BUFFER_SIZE, items := msgs.take 64 }, [false]) := by
    simp only [send_all, push_of_full
      ({ capacity := CONTROL_RING_BUFFER_SIZE, items := msgs.take 64 } : ControlQueue)
      m (by simp [htake, CONTROL_RING_BUFFER_SIZE])]
  conv_lhs => rw [hsplit]
  rw [send_all_append, hroom, hfull]

/-- Witness for C7: 65 concrete quit messages. -/
theorem C7_witness :
    send_all { capacity := CONTROL_RING_BUFFER_SIZE, items := [] }
        (List.replicate 65 ControlMsg.Quit) =
      ({ capacity := CONTROL_RING_BUFFER_SIZE,
         items := (List.replicate 65 ControlMsg.Quit).take 64 },
        List.replicate 64 true ++ [false]) :=
  (C7_queue_capacity (List.replicate 65 ControlMsg.Quit) (by simp)).1

/-! Lemmas on control-message application. -/

theorem length_modify_at :
    ∀ (l : List ChannelState) (i : Nat) (f : ChannelState → ChannelState),
      (modify_at l i f).length = l.length
  | [], _, _ => rfl
  | _ :: _, 0, _ => rfl
  | c :: l, n + 1, f => by simp [modify_at, length_modify_at l n f]

theorem apply_control_lengths (s : MixerState × Bool) (m : ControlMsg) :
    (apply_control s m).1.inputs.length = s.1.inputs.length ∧
    (apply_control s m).1.outputs.length = s.1.outputs.length := by
  cases m
  case Quit => exact ⟨rfl, rfl⟩
  all_goals
    simp only [apply_control]
    split <;> simp [length_modify_at]

theorem apply_control_out_of_range (s : MixerState × Bool) (m : ControlMsg)
    (h : msg_out_of_range s.1 m = true) : apply_control s m = s := by
  cases m with
  | SetInputVolume channel volume_db =>
      simp only [msg_out_of_range, decide_eq_true_eq] at h
      simp [apply_control, Nat.not_lt.mpr h]
  | SetOutputVolume channel volume_db =>
      simp only [msg_out_of_range, decide_eq_true_eq] at h
      simp [apply_control, Nat.not_lt.mpr h]
  | ToggleInputMute channel =>
      simp only [msg_out_of_range, decide_eq_true_eq] at h
      simp [apply_control, Nat.not_lt.mpr h]
  | ToggleOutputMute channel =>
      simp only [msg_out_of_range, decide_eq_true_eq] at h
      simp [apply_control, Nat.not_lt.mpr h]
  | ToggleInputSolo channel =>
      simp only [msg_out_of_range, decide_eq_true_eq] at h
      simp [apply_control, Nat.not_lt.mpr h]
  | Quit => simp [msg_out_of_range] at h

theorem msg_out_of_range_congr {s1 s2 : MixerState} (m : ControlMsg)
    (hi : s1.inputs.length = s2.inputs.length)
    (ho : s1.outputs.length = s2.outputs.length) :
    msg_out_of_range s1 m = msg_out_of_range s2 m := by
  cases m <;> simp [msg_out_of_range, hi, ho]

theorem drain_control_skip :
    ∀ (l1 : List ControlMsg) (s : MixerState × Bool) (m : ControlMsg)
      (l2 : List ControlMsg), msg_out_of_range s.1 m = true →
      drain_control s (l1 ++ m :: l2) = drain_control s (l1 ++ l2)
  | [], s, m, l2, h => by
      simp only [List.nil_append, drain_control, List.foldl_cons]
      rw [apply_control_out_of_range s m h]
  | a :: l1, s, m, l2, h => by
      simp only [List.cons_append, drain_control, List.foldl_cons]
      exact drain_control_skip l1 (apply_control s a) m l2
        (by
          rw [msg_out_of_range_congr m (apply_control_lengths s a).1
            (apply_control_lengths s a).2]
          exact h)

/-- C8: a control message whose channel index is out of range for the
addressed channel list leaves the engine's entire state — the authoritative
`MixerState` and the quit flag — unchanged, and removing it from any
position of the drained queue changes nothing: no error is raised and
processing of the remaining messages continues normally. -/
theorem C8_out_of_range_ignored (s : MixerState × Bool) (m : ControlMsg)
    (l1 l2 : List ControlMsg) (h : msg_out_of_range s.1 m = true) :
    apply_control s m = s ∧
    drain_control s (l1 ++ m :: l2) = drain_control s (l1 ++ l2) :=
  ⟨apply_control_out_of_range s m h, drain_control_skip l1 s m l2 h⟩

/-- Witness for C8: a stale `SetInputVolume` aimed at channel 5 of a
one-input mixer is ignored inside a concrete message sequence. -/
theorem C8_witness :
    apply_control ({ inputs := [flat_state "a" 1], outputs := [flat_state "b" 2] }, false)
        (ControlMsg.SetInputVolume 5 3) =
      ({ inputs := [flat_state "a" 1], outputs := [flat_state "b" 2] }, false) ∧
    drain_control ({ inputs := [flat_state "a" 1], outputs := [flat_state "b" 2] }, false)
        [ControlMsg.ToggleInputMute 0, ControlMsg.SetInputVolume 5 3, ControlMsg.Quit] =
      drain_control ({ inputs := [flat_state "a" 1], outputs := [flat_state "b" 2] }, false)
        [ControlMsg.ToggleInputMute 0, ControlMsg.Quit] :=
  C8_out_of_range_ignored
    ({ inputs := [flat_state "a" 1], outputs := [flat_state "b" 2] }, false)
    (ControlMsg.SetInputVolume 5 3) [ControlMsg.ToggleInputMute 0] [ControlMsg.Quit]
    (by decide)

/-! Lemmas on meter application and the display refinement. -/

theorem update_meter_port_count (st : ChannelState) (peaks : ℚ × ℚ) (dur now : ℚ) :
    (st.update_meter peaks dur now).port_count = st.port_count := by
  obtain ⟨hc0, hc1, hc2⟩ := update_meter_cases st peaks dur now
  by_cases h0 : st.port_count = 0
  · rw [hc0 h0]
  · by_cases h1 : st.port_count = 1
    · rw [hc1 h1]; simp [update_slot0]
    · rw [hc2 (by omega)]; simp [update_slot0, update_slot1]

theorem set_peaks_collapse (cur p1 p2 : ℚ × ℚ) (pc : Nat) :
    set_peaks (set_peaks cur p1 pc) p2 pc = set_peaks cur p2 pc := by
  unfold set_peaks
  by_cases h0 : 0 < pc <;> by_cases h1 : 1 < pc <;> simp [h0, h1]

theorem update_meter_current_peaks (st : ChannelState) (peaks : ℚ × ℚ) (dur now : ℚ) :
    (st.update_meter peaks dur now).current_peaks =
      set_peaks st.current_peaks peaks st.port_count := by
  obtain ⟨hc0, hc1, hc2⟩ := update_meter_cases st peaks dur now
  by_cases h0 : st.port_count = 0
  · rw [hc0 h0, h0]; simp [set_peaks]
  · by_cases h1 : st.port_count = 1
    · rw [hc1 h1, h1]; simp [update_slot0, set_peaks]
    · have h2 : 2 ≤ st.port_count := by omega
      rw [hc2 h2]
      simp [update_slot0, update_slot1, set_peaks,
        show 0 < st.port_count by omega, show 1 < st.port_count by omega]

theorem getD_modify_at :
    ∀ (l : List ChannelState) (k j : Nat) (f : ChannelState → ChannelState)
      (d : ChannelState),
      (modify_at l k f).getD j d =
        if k = j ∧ j < l.length then f (l.getD j d) else l.getD j d
  | [], k, j, f, d => by simp [modify_at]
  | c :: l, 0, 0, f, d => by simp [modify_at]
  | c :: l, 0, j + 1, f, d => by simp [modify_at]
  | c :: l, k + 1, 0, f, d => by simp [modify_at]
  | c :: l, k + 1, j + 1, f, d => by
      simp only [modify_at, List.getD_cons_succ, List.length_cons]
      rw [getD_modify_at l k j f d]
      by_cases hc : k = j ∧ j < l.length
      · rw [if_pos hc, if_pos (by omega)]
      · rw [if_neg hc, if_neg (by omega)]

theorem apply_meter_lengths (dur now : ℚ) (s : MixerState) (m : MeterData) :
    (apply_meter dur now s m).inputs.length = s.inputs.length ∧
    (apply_meter dur now s m).outputs.length = s.outputs.length := by
  simp only [apply_meter]
  split
  · simp [length_modify_at]
  · split
    · simp [length_modify_at]
    · exact ⟨rfl, rfl⟩

theorem apply_meter_inputs_getD (dur now : ℚ) (s : MixerState) (m : MeterData)
    (i : Nat) (d : ChannelState) :
    (apply_meter dur now s m).inputs.getD i d =
      if m.channel_index = i ∧ i < s.inputs.length
      then (s.inputs.getD i d).update_meter m.peaks dur now
      else s.inputs.getD i d := by
  simp only [apply_meter]
  split
  case isTrue h =>
      rw [show ({ s with
        inputs := modify_at s.inputs m.channel_index
          (fun c => c.update_meter m.peaks dur now) } : MixerState).inputs =
        modify_at s.inputs m.channel_index
          (fun c => c.update_meter m.peaks dur now) from rfl]
      rw [getD_modify_at]
  case isFalse h =>
      rw [if_neg (show ¬ (m.channel_index = i ∧ i < s.inputs.length) by omega)]
      split <;> rfl

theorem apply_meter_outputs_getD (dur now : ℚ) (s : MixerState) (m : MeterData)
    (o : Nat) (d : ChannelState) :
    (apply_meter dur now s m).outputs.getD o d =
      if m.channel_index = s.inputs.length + o ∧ o < s.outputs.length
      then (s.outputs.getD o d).update_meter m.peaks dur now
      else s.outputs.getD o d := by
  simp only [apply_meter]
  split
  case isTrue h =>
      rw [if_neg
        (show ¬ (m.channel_index = s.inputs.length + o ∧ o < s.outputs.length) by omega)]
  case isFalse h =>
      split
      case isTrue h2 =>
          rw [show ({ s with
            outputs := modify_at s.outputs (m.channel_index - s.inputs.length)
              (fun c => c.update_meter m.peaks dur now) } : MixerState).outputs =
            modify_at s.outputs (m.channel_index - s.inputs.length)
              (fun c => c.update_meter m.peaks dur now) from rfl]
          rw [getD_modify_at]
          by_cases hc : m.channel_index = s.inputs.length + o ∧ o < s.outputs.length
          · rw [if_pos
              (show m.channel_index - s.inputs.length = o ∧ o < s.outputs.length by
                omega),
              if_pos hc]
          · rw [if_neg
              (show ¬ (m.channel_index - s.inputs.length = o ∧ o < s.outputs.length) by
                omega),
              if_neg hc]
      case isFalse h2 =>
          rw [if_neg
            (show ¬ (m.channel_index = s.inputs.length + o ∧ o < s.outputs.length) by
              omega)]

theorem drain_meters_lengths (dur now : ℚ) :
    ∀ (msgs : List MeterData) (s : MixerState),
      (process_meter_updates dur now s msgs).inputs.length = s.inputs.length ∧
      (process_meter_updates dur now s msgs).outputs.length = s.outputs.length
  | [], _ => ⟨rfl, rfl⟩
  | m :: msgs, s => by
      have h1 := apply_meter_lengths dur now s m
      have h2 := drain_meters_lengths dur now msgs (apply_meter dur now s m)
      exact ⟨h2.1.trans h1.1, h2.2.trans h1.2⟩

theorem drain_meters_inputs (dur now : ℚ) :
    ∀ (msgs : List MeterData) (s : MixerState) (i : Nat), i < s.inputs.length →
      ((process_meter_updates dur now s msgs).inputs.getD i
          (flat_state "" 0)).current_peaks =
        (match last_meter_for i msgs with
         | some m => set_peaks ((s.inputs.getD i (flat_state "" 0)).current_peaks)
             m.peaks ((s.inputs.getD i (flat_state "" 0)).port_count)
         | none => (s.inputs.getD i (flat_state "" 0)).current_peaks)
  | [], _, _, _ => rfl
  | m :: msgs, s, i, hi => by
      have hlen := apply_meter_lengths dur now s m
      have hrec := drain_meters_inputs dur now msgs (apply_meter dur now s m) i
        (by rw [hlen.1]; exact hi)
      show ((process_meter_updates dur now (apply_meter dur now s m) msgs).inputs.getD i
          (flat_state "" 0)).current_peaks = _
      rw [hrec, apply_meter_inputs_getD dur now s m i (flat_state "" 0)]
      by_cases hm : m.channel_index = i
      · rw [if_pos ⟨hm, hi⟩]
        cases hl : last_meter_for i msgs with
        | some m2 =>
            simp only [last_meter_for, hl]
            rw [update_meter_current_peaks, update_meter_port_count,
              set_peaks_collapse]
        | none =>
            simp only [last_meter_for, hl, if_pos hm]
            rw [update_meter_current_peaks]
      · rw [if_neg (fun hx => hm hx.1)]
        cases hl : last_meter_for i msgs with
        | some m2 => simp only [last_meter_for, hl]
        | none => simp only [last_meter_for, hl, if_neg hm]

theorem drain_meters_outputs (dur now : ℚ) :
    ∀ (msgs : List MeterData) (s : MixerState) (o : Nat), o < s.outputs.length →
      ((process_meter_updates dur now s msgs).outputs.getD o
          (flat_state "" 0)).current_peaks =
        (match last_meter_for (s.inputs.length + o) msgs with
         | some m => set_peaks ((s.outputs.getD o (flat_state "" 0)).current_peaks)
             m.peaks ((s.outputs.getD o (flat_state "" 0)).port_count)
         | none => (s.outputs.getD o (flat_state "" 0)).current_peaks)
  | [], _, _, _ => rfl
  | m :: msgs, s, o, ho => by
      have hlen := apply_meter_lengths dur now s m
      have hrec := drain_meters_outputs dur now msgs (apply_meter dur now s m) o
        (by rw [hlen.2]; exact ho)
      rw [hlen.1] at hrec
      show ((process_meter_updates dur now (apply_meter dur now s m) msgs).outputs.getD o
          (flat_state "" 0)).current_peaks = _
      rw [hrec, apply_meter_outputs_getD dur now s m o (flat_state "" 0)]
      by_cases hm : m.channel_index = s.inputs.length + o
      · rw [if_pos ⟨hm, ho⟩]
        cases hl : last_meter_for (s.inputs.length + o) msgs with
        | some m2 =>
            simp only [last_meter_for, hl]
            rw [update_meter_current_peaks, update_meter_port_count,
              set_peaks_collapse]
        | none =>
            simp only [last_meter_for, hl, if_pos hm]
            rw [update_meter_current_peaks]
      · rw [if_neg (fun hx => hm hx.1)]
        cases hl : last_meter_for (s.inputs.length + o) msgs with
        | some m2 => simp only [last_meter_for, hl]
        | none => simp only [last_meter_for, hl, if_neg hm]

theorem mem_of_mem_keep_last :
    ∀ (l : List MeterData) (m : MeterData), m ∈ keep_last l → m ∈ l
  | [], m, h => by simp [keep_last] at h
  | m0 :: rest, m, h => by
      by_cases hc : rest.any (fun m2 => m2.channel_index = m0.channel_index) = true
      · rw [keep_last, if_pos hc] at h
        exact List.mem_cons_of_mem _ (mem_of_mem_keep_last rest m h)
      · rw [keep_last, if_neg hc] at h
        rcases List.mem_cons.mp h with h1 | h2
        · exact h1 ▸ List.mem_cons_self _ _
        · exact List.mem_cons_of_mem _ (mem_of_mem_keep_last rest m h2)

theorem last_meter_for_none :
    ∀ (l : List MeterData) (idx : Nat),
      last_meter_for idx l = none ↔ ∀ m ∈ l, ¬ m.channel_index = idx
  | [], idx => by simp [last_meter_for]
  | m :: l, idx => by
      simp only [last_meter_for, List.forall_mem_cons]
      cases h : last_meter_for idx l with
      | some m2 =>
          constructor
          · intro hx; cases hx
          · intro hx
            have h2 := (last_meter_for_none l idx).mpr hx.2
            rw [h] at h2; cases h2
      | none =>
          by_cases hm : m.channel_index = idx
          · simp [hm]
          · simp [hm]
            exact (last_meter_for_none l idx).mp h

theorem last_meter_for_keep_last (idx : Nat) :
    ∀ (l : List MeterData), last_meter_for idx (keep_last l) = last_meter_for idx l
  | [] => rfl
  | m :: rest => by
      by_cases hc : rest.any (fun m2 => m2.channel_index = m.channel_index) = true
      · rw [keep_last, if_pos hc, last_meter_for_keep_last idx rest]
        cases hl : last_meter_for idx rest with
        | some m2 => simp only [last_meter_for, hl]
        | none =>
            simp only [last_meter_for, hl]
            have hm : ¬ m.channel_index = idx := by
              intro heq
              obtain ⟨m2, hm2, hm2eq⟩ := List.any_eq_true.mp hc
              have := (last_meter_for_none rest idx).mp hl m2 hm2
              rw [decide_eq_true_eq] at hm2eq
              rw [hm2eq, heq] at this
              exact this rfl
            rw [if_neg hm]
      · rw [keep_last, if_neg hc]
        simp only [last_meter_for, last_meter_for_keep_last idx rest]

/-- Counterexample to C9 as stated: draining every pending sample in FIFO
order is not equivalent to applying only the last sample per channel index:
the peak-hold state depends on the intermediate samples.  With hold 0 and
two samples 9/10 then 1/2 for channel 0 inside one frame, draining both
leaves hold 9/10, while applying only the last sample leaves hold 1/2. -/
theorem C9_counterexample :
    ((process_meter_updates 5 1
        { inputs := [flat_state "a" 1], outputs := [] }
        [{ channel_index := 0, peaks := (9/10, 0), port_count := 1, timestamp := 0 },
         { channel_index := 0, peaks := (1/2, 0), port_count := 1,
           timestamp := 0 }]).inputs.getD 0 (flat_state "" 0)).peak_hold.1 = 9/10 ∧
    ((process_meter_updates 5 1
        { inputs := [flat_state "a" 1], outputs := [] }
        (keep_last
          [{ channel_index := 0, peaks := (9/10, 0), port_count := 1, timestamp := 0 },
           { channel_index := 0, peaks := (1/2, 0), port_count := 1,
             timestamp := 0 }])).inputs.getD 0 (flat_state "" 0)).peak_hold.1 = 1/2 ∧
    process_meter_updates 5 1 { inputs := [flat_state "a" 1], outputs := [] }
        [{ channel_index := 0, peaks := (9/10, 0), port_count := 1, timestamp := 0 },
         { channel_index := 0, peaks := (1/2, 0), port_count := 1, timestamp := 0 }] ≠
      process_meter_updates 5 1 { inputs := [flat_state "a" 1], outputs := [] }
        (keep_last
          [{ channel_index := 0, peaks := (9/10, 0), port_count := 1, timestamp := 0 },
           { channel_index := 0, peaks := (1/2, 0), port_count := 1,
             timestamp := 0 }]) := by
  have h1 : ((process_meter_updates 5 1
      { inputs := [flat_state "a" 1], outputs := [] }
      [{ channel_index := 0, peaks := (9/10, 0), port_count := 1, timestamp := 0 },
       { channel_index := 0, peaks := (1/2, 0), port_count := 1,
         timestamp := 0 }]).inputs.getD 0 (flat_state "" 0)).peak_hold.1 = 9/10 := by
    norm_num [process_meter_updates, apply_meter, modify_at, flat_state,
      ChannelState.update_meter, update_slot0, update_slot1, hold_step, elapsed,
      max_def]
  have h2 : ((process_meter_updates 5 1
      { inputs := [flat_state "a" 1], outputs := [] }
      (keep_last
        [{ channel_index := 0, peaks := (9/10, 0), port_count := 1, timestamp := 0 },
         { channel_index := 0, peaks := (1/2, 0), port_count := 1,
           timestamp := 0 }])).inputs.getD 0 (flat_state "" 0)).peak_hold.1 = 1/2 := by
    norm_num [keep_last, process_meter_updates, apply_meter, modify_at, flat_state,
      ChannelState.update_meter, update_slot0, update_slot1, hold_step, elapsed,
      max_def]
  refine ⟨h1, h2, fun heq => ?_⟩
  rw [heq] at h1
  rw [h1] at h2
  norm_num at h2

/-- C9 (amended): draining all pending meter samples of one display frame in
FIFO order yields the same *displayed instantaneous levels*
(`current_peaks` of every input and output channel) as applying only the
last sample per channel index; the peak-hold state, by contrast, may differ
(see the counterexample), since it retains in-frame maxima. -/
theorem C9_drain_matches_last_sample_display (dur now : ℚ) (s : MixerState)
    (msgs : List MeterData) :
    (process_meter_updates dur now s msgs).inputs.map ChannelState.current_peaks =
      (process_meter_updates dur now s (keep_last msgs)).inputs.map
        ChannelState.current_peaks ∧
    (process_meter_updates dur now s msgs).outputs.map ChannelState.current_peaks =
      (process_meter_updates dur now s (keep_last msgs)).outputs.map
        ChannelState.current_peaks := by
  have hl1 := drain_meters_lengths dur now msgs s
  have hl2 := drain_meters_lengths dur now (keep_last msgs) s
  constructor
  · apply list_eq_of_getD ((0 : ℚ), (0 : ℚ))
    · simp [hl1.1, hl2.1]
    · intro i hi
      have hi' : i < s.inputs.length := by
        simpa [hl1.1] using hi
      have hiL : i < (process_meter_updates dur now s msgs).inputs.length := by
        rw [hl1.1]; exact hi'
      have hiR : i < (process_meter_updates dur now s (keep_last msgs)).inputs.length := by
        rw [hl2.1]; exact hi'
      rw [getD_map_of_lt ChannelState.current_peaks ((0 : ℚ), (0 : ℚ))
          (flat_state "" 0) _ i hiL,
        getD_map_of_lt ChannelState.current_peaks ((0 : ℚ), (0 : ℚ))
          (flat_state "" 0) _ i hiR,
        drain_meters_inputs dur now msgs s i hi',
        drain_meters_inputs dur now (keep_last msgs) s i hi',
        last_meter_for_keep_last]
  · apply list_eq_of_getD ((0 : ℚ), (0 : ℚ))
    · simp [hl1.2, hl2.2]
    · intro o ho
      have ho' : o < s.outputs.length := by
        simpa [hl1.2] using ho
      have hoL : o < (process_meter_updates dur now s msgs).outputs.length := by
        rw [hl1.2]; exact ho'
      have hoR : o < (process_meter_updates dur now s
          (keep_last msgs)).outputs.length := by
        rw [hl2.2]; exact ho'
      rw [getD_map_of_lt ChannelState.current_peaks ((0 : ℚ), (0 : ℚ))
          (flat_state "" 0) _ o hoL,
        getD_map_of_lt ChannelState.current_peaks ((0 : ℚ), (0 : ℚ))
          (flat_state "" 0) _ o hoR,
        drain_meters_outputs dur now msgs s o ho',
        drain_meters_outputs dur now (keep_last msgs) s o ho',
        last_meter_for_keep_last]

end RMixer
